import Mathlib

/-!
# Verification of the soroban-env-host host-function surface

Shallow embedding of `soroban-env-host/src/host.rs` and
`soroban-env-host/src/native_contract/token/contract.rs`.

Host values are modelled as resolved value trees (`ResVal`): an object
handle in the real host resolves, through the append-only object
registry, to such a tree.  Guest-facing `Val`s, which are either small
immediates or object handles, are modelled by `ValM` together with a
registry `List ResVal` mapping handle indices to resolved objects.

Components of the repository that are referenced by `host.rs` but whose
source is not part of this tree (the `comparison`, `metered_map`,
`metered_vector`, `metered_xdr`, `storage` and `error` modules, and the
token sub-modules `balance`, `allowance`, `admin`, `asset_info`,
`event`) are modelled from the specification; each such definition is
marked `Modelled from the spec:` in its doc comment.  Budget metering is
not modelled: every claim treated here is conditioned on a budget
sufficient for the operations involved.
-/

set_option linter.unreachableTactic false
set_option linter.unusedTactic false
set_option linter.unnecessarySeqFocus false

namespace Soroban

/-! ## Resolved host values -/

mutual
/-- A resolved host value: what a `Val` denotes once object handles are
chased through the object registry.  The constructors follow the
`ScVal` type ordering (Bool, Void, Error, U32, I32, U64, I64, ...,
Bytes, Symbol, Vec, Map); a representative subset of the numeric kinds
is modelled. -/
inductive ResVal : Type
| vBool (b : Bool)
| vVoid
| vError (t c : Nat)
| vU32 (n : Nat)
| vI32 (i : Int)
| vU64 (n : Nat)
| vI64 (i : Int)
| vBytes (s : List Nat)
| vSym (s : List Nat)
| vVec (xs : ResList)
| vMap (xs : ResPairs)

/-- A list of resolved host values (payload of a `HostVec`). -/
inductive ResList : Type
| nil
| cons (x : ResVal) (xs : ResList)

/-- An ordered association list of resolved host values (payload of a
`HostMap`); kept sorted by key under the host comparison. -/
inductive ResPairs : Type
| nil
| cons (k v : ResVal) (xs : ResPairs)
end

deriving instance DecidableEq for ResVal, ResList, ResPairs

/-- ScVal type ordinal of a resolved value, following the `ScValType`
declaration order used by `get_scval_type` (cross-type comparisons order
by this ordinal, spec section 4.4 rule 3). -/
def tagOrd : ResVal → Nat
| .vBool _ => 0
| .vVoid => 1
| .vError _ _ => 2
| .vU32 _ => 3
| .vI32 _ => 4
| .vU64 _ => 5
| .vI64 _ => 6
| .vBytes _ => 7
| .vSym _ => 8
| .vVec _ => 9
| .vMap _ => 10

/-- Three-way comparison on `Nat` (explicit, to keep full control of the
defining equations). -/
def cmpNat (a b : Nat) : Ordering :=
  if a < b then .lt else if b < a then .gt else .eq

/-- Three-way comparison on `Int`. -/
def cmpInt (a b : Int) : Ordering :=
  if a < b then .lt else if b < a then .gt else .eq

/-- Three-way comparison on `Bool` (`false < true`). -/
def cmpBool : Bool → Bool → Ordering
| false, false => .eq
| false, true => .lt
| true, false => .gt
| true, true => .eq

/-- Bytewise lexicographic comparison of byte strings (spec section 4.4:
"bytewise for byte buffers"). -/
def cmpNatList : List Nat → List Nat → Ordering
| [], [] => .eq
| [], _ :: _ => .lt
| _ :: _, [] => .gt
| a :: as_, b :: bs => (cmpNat a b).then (cmpNatList as_ bs)

mutual
/-- Modelled from the spec: the canonical cross-type comparison of host
values (spec section 4.4, implemented by the `comparison` module which is
not part of this source tree).  Rules in order: same type compares by
the canonical per-type order (bytewise for byte buffers, numeric for
ints, lexicographic element-wise for Vec/Map); different types order by
the ScVal type ordinal. -/
def cmpVal : ResVal → ResVal → Ordering
| .vBool a, .vBool b => cmpBool a b
| .vVoid, .vVoid => .eq
| .vError t c, .vError t' c' => (cmpNat t t').then (cmpNat c c')
| .vU32 a, .vU32 b => cmpNat a b
| .vI32 a, .vI32 b => cmpInt a b
| .vU64 a, .vU64 b => cmpNat a b
| .vI64 a, .vI64 b => cmpInt a b
| .vBytes a, .vBytes b => cmpNatList a b
| .vSym a, .vSym b => cmpNatList a b
| .vVec a, .vVec b => cmpVList a b
| .vMap a, .vMap b => cmpVPairs a b
| x, y => cmpNat (tagOrd x) (tagOrd y)

/-- Lexicographic element-wise comparison of value sequences. -/
def cmpVList : ResList → ResList → Ordering
| .nil, .nil => .eq
| .nil, .cons _ _ => .lt
| .cons _ _, .nil => .gt
| .cons x xs, .cons y ys => (cmpVal x y).then (cmpVList xs ys)

/-- Lexicographic element-wise comparison of key-value sequences
(key first, then value). -/
def cmpVPairs : ResPairs → ResPairs → Ordering
| .nil, .nil => .eq
| .nil, .cons _ _ _ => .lt
| .cons _ _ _, .nil => .gt
| .cons k v xs, .cons k' v' ys =>
    ((cmpVal k k').then (cmpVal v v')).then (cmpVPairs xs ys)
end

/-! ## Errors -/

/-- The `ScErrorType` taxonomy (spec section 4.10). -/
inductive ErrTypeM : Type
| Contract
| WasmVm
| Context
| Storage
| Object
| Crypto
| Auth
| Budget
| Value
deriving DecidableEq

/-- Ordinal of an error type in the `ScErrorType` declaration order. -/
def errTypeOrd : ErrTypeM → Nat
| .Contract => 0
| .WasmVm => 1
| .Context => 2
| .Storage => 3
| .Object => 4
| .Crypto => 5
| .Auth => 6
| .Budget => 7
| .Value => 8

/-- An error as seen by the guest: a `(type, code)` pair.  For
`Contract`-typed errors the code is the contract's own error number; for
host errors it is one of the `ScErrorCode` ordinals below. -/
structure ErrorM : Type where
  etype : ErrTypeM
  code : Nat
deriving DecidableEq

def codeArithDomain : Nat := 0
def codeIndexBounds : Nat := 1
def codeInvalidInput : Nat := 2
def codeMissingValue : Nat := 3
def codeExistingValue : Nat := 4
def codeExceededLimit : Nat := 5
def codeInvalidAction : Nat := 6
def codeInternalError : Nat := 7
def codeUnexpectedType : Nat := 8
def codeUnexpectedSize : Nat := 9

/-! ## Guest-facing values: small immediates and object handles -/

/-- Type tag of an object handle, for the object kinds modelled here. -/
inductive ObjTagM : Type
| tU64
| tI64
| tBytes
| tSym
| tVec
| tMap
deriving DecidableEq

/-- ScVal type ordinal declared by an object tag. -/
def objTagOrd : ObjTagM → Nat
| .tU64 => 5
| .tI64 => 6
| .tBytes => 7
| .tSym => 8
| .tVec => 9
| .tMap => 10

/-- A guest-facing 64-bit tagged `Val`: either a small immediate carrying
its payload inline, or an object handle `(type tag, registry index)`. -/
inductive ValM : Type
| vmBool (b : Bool)
| vmVoid
| vmError (t c : Nat)
| vmU32 (n : Nat)
| vmI32 (i : Int)
| vmU64Small (n : Nat)
| vmI64Small (i : Int)
| vmSymSmall (s : List Nat)
| vmObj (tag : ObjTagM) (idx : Nat)
deriving DecidableEq

/-- The resolved value denoted by a small immediate (`none` on handles). -/
def resolveSmall : ValM → Option ResVal
| .vmBool b => some (.vBool b)
| .vmVoid => some .vVoid
| .vmError t c => some (.vError t c)
| .vmU32 n => some (.vU32 n)
| .vmI32 i => some (.vI32 i)
| .vmU64Small n => some (.vU64 n)
| .vmI64Small i => some (.vI64 i)
| .vmSymSmall s => some (.vSym s)
| .vmObj _ _ => none

/-- Is a resolved value of an object kind, i.e. a kind that lives in the
registry behind an object tag? -/
def isObjKind : ResVal → Bool
| .vU64 _ => true
| .vI64 _ => true
| .vBytes _ => true
| .vSym _ => true
| .vVec _ => true
| .vMap _ => true
| _ => false

/-- Does a registry entry have the type declared by an object tag? -/
def objTagMatches : ObjTagM → ResVal → Bool
| .tU64, .vU64 _ => true
| .tI64, .vI64 _ => true
| .tBytes, .vBytes _ => true
| .tSym, .vSym _ => true
| .tVec, .vVec _ => true
| .tMap, .vMap _ => true
| _, _ => false

/-- ScVal type ordinal carried by a `Val`'s tag
(`val.get_tag().get_scval_type()`). -/
def scvalTypeOrd : ValM → Nat
| .vmBool _ => 0
| .vmVoid => 1
| .vmError _ _ => 2
| .vmU32 _ => 3
| .vmI32 _ => 4
| .vmU64Small _ => 5
| .vmI64Small _ => 6
| .vmSymSmall _ => 8
| .vmObj tag _ => objTagOrd tag

/-- `Object::try_from(val)` succeeds exactly on object handles. -/
def isObjVal : ValM → Bool
| .vmObj _ _ => true
| _ => false

/-- The object registry: an append-only sequence of host objects, here
kept as resolved value trees.  A handle index denotes a position. -/
def lookupObj (R : List ResVal) (i : Nat) : Option ResVal := R[i]?

/-- `check_val_integrity` (validity module, modelled from the spec):
small immediates pass; an object handle must reference an in-range
registry entry whose type matches the handle's tag. -/
def checkValIntegrity (R : List ResVal) : ValM → Bool
| .vmObj tag i =>
    match lookupObj R i with
    | some o => objTagMatches tag o
    | none => false
| _ => true

/-- Resolve a guest value to the host value it denotes. -/
def resolveVal (R : List ResVal) : ValM → Option ResVal
| .vmObj _ i => lookupObj R i
| v => resolveSmall v

/-- Integrity check as a fallible step, as host functions perform it. -/
def checkIntegrityE (R : List ResVal) (v : ValM) : Except ErrorM Unit :=
  if checkValIntegrity R v then .ok () else .error ⟨.Value, codeInvalidInput⟩

/-- Modelled from the spec: the error issued by `visit_obj` when a handle
does not reference a well-typed registry entry. -/
def errBadObjHandle : ErrorM := ⟨.Object, codeIndexBounds⟩

/-- Modelled from the spec: `HostObject::try_compare_to_small` — compare
an object against a small value of the same ScVal type; `none` when the
two kinds do not pair up. -/
def tryCompareToSmall : ResVal → ValM → Option Ordering
| .vU64 n, .vmU64Small m => some (cmpNat n m)
| .vI64 i, .vmI64Small j => some (cmpInt i j)
| .vSym s, .vmSymSmall t => some (cmpNatList s t)
| _, _ => none

/-- Translate an `Ordering` to the `-1/0/1` word returned to the guest. -/
def ordToInt : Ordering → Int
| .lt => -1
| .eq => 0
| .gt => 1

/-- The dispatch step of `obj_cmp` (the inner `match (Object::try_from a,
Object::try_from b)` of host.rs): two objects are both visited and
compared by the canonical comparison; an object against a non-object
goes through `try_compare_to_small`, reversing the resulting ordering
when the object is the right operand; two non-objects are rejected with
`Value/UnexpectedType`. -/
def objCmpDispatch (R : List ResVal) (a b : ValM) :
    Except ErrorM (Option Ordering) :=
  match a, b with
  | .vmObj _ ia, .vmObj _ ib =>
      match lookupObj R ia, lookupObj R ib with
      | some ao, some bo => .ok (some (cmpVal ao bo))
      | _, _ => .error errBadObjHandle
  | .vmObj _ ia, _ =>
      match lookupObj R ia with
      | some ao => .ok (tryCompareToSmall ao b)
      | none => .error errBadObjHandle
  | _, .vmObj _ ib =>
      match lookupObj R ib with
      | some bo =>
          .ok
            (match tryCompareToSmall bo a with
             | some .lt => some .gt
             | some .gt => some .lt
             | other => other)
      | none => .error errBadObjHandle
  | _, _ => .error ⟨.Value, codeUnexpectedType⟩

/-- The `obj_cmp` host function (host.rs, `fn obj_cmp`): checks integrity
of both arguments, dispatches on their objecthood, and — where the
small-value path yields no pairing — orders by the tags' ScVal type
ordinals, rejecting equal ordinals as an internal error; the resulting
ordering is returned as `-1/0/1`. -/
def obj_cmp (R : List ResVal) (a b : ValM) : Except ErrorM Int :=
  if checkValIntegrity R a = true then
    if checkValIntegrity R b = true then
      match objCmpDispatch R a b with
      | .ok (some o) => .ok (ordToInt o)
      | .ok none =>
          if scvalTypeOrd a = scvalTypeOrd b then
            .error ⟨.Value, codeInternalError⟩
          else
            .ok (ordToInt (cmpNat (scvalTypeOrd a) (scvalTypeOrd b)))
      | .error e => .error e
    else .error ⟨.Value, codeInvalidInput⟩
  else .error ⟨.Value, codeInvalidInput⟩

/-! ## Metered collections: persistent map and persistent vector -/

/-- Modelled from the spec: `HostMap::insert` (metered_map module) —
the key-value sequence is kept sorted ascending by key under the host
comparison; inserting an existing key replaces its value. -/
def mapInsert : ResPairs → ResVal → ResVal → ResPairs
| .nil, k, v => .cons k v .nil
| .cons k' v' rest, k, v =>
    match cmpVal k k' with
    | .lt => .cons k v (.cons k' v' rest)
    | .eq => .cons k v rest
    | .gt => .cons k' v' (mapInsert rest k v)

/-- Modelled from the spec: `HostMap::get` — search the key-sorted
sequence for an equal key. -/
def mapGet : ResPairs → ResVal → Option ResVal
| .nil, _ => none
| .cons k' v' rest, k =>
    match cmpVal k k' with
    | .lt => none
    | .eq => some v'
    | .gt => mapGet rest k

/-- Modelled from the spec: `HostMap::contains_key`. -/
def mapHasKey : ResPairs → ResVal → Bool
| .nil, _ => false
| .cons k' _ rest, k =>
    match cmpVal k k' with
    | .lt => false
    | .eq => true
    | .gt => mapHasKey rest k

/-- Number of entries of a map. -/
def mapLen : ResPairs → Nat
| .nil => 0
| .cons _ _ rest => mapLen rest + 1

/-- Length of a value sequence. -/
def vlistLen : ResList → Nat
| .nil => 0
| .cons _ xs => vlistLen xs + 1

/-- Element at an index of a value sequence. -/
def vlistGet : ResList → Nat → Option ResVal
| .nil, _ => none
| .cons x _, 0 => some x
| .cons _ xs, n + 1 => vlistGet xs n

/-- Modelled from the spec: `HostVec::push_back` — append one element. -/
def vlistPushBack : ResList → ResVal → ResList
| .nil, x => .cons x .nil
| .cons y ys, x => .cons y (vlistPushBack ys x)

/-- Modelled from the spec: `HostVec::pop_back` — drop the last element;
fails on the empty vector. -/
def vlistPopBack : ResList → Option ResList
| .nil => none
| .cons _ .nil => some .nil
| .cons y (.cons z zs) =>
    match vlistPopBack (.cons z zs) with
    | some ys => some (.cons y ys)
    | none => none

/-- Insert an element at an index (used to state the binary-search
insertion-point property). -/
def vlistInsertAt : ResList → Nat → ResVal → ResList
| xs, 0, x => .cons x xs
| .nil, _ + 1, x => .cons x .nil
| .cons y ys, n + 1, x => .cons y (vlistInsertAt ys n x)

/-- Is a value sequence sorted ascending (no descent) under `cmpVal`? -/
def sortedVList : ResList → Bool
| .nil => true
| .cons _ .nil => true
| .cons x (.cons y ys) => (cmpVal x y).isLE && sortedVList (.cons y ys)

/-- Modelled from the spec: `binary_search_by` on a sequence sorted by
the comparison (metered_vector module) — yields `(found, idx)`: on a hit
`idx` is a position whose element compares equal to the probe target, on
a miss `idx` is the insertion index that keeps the sequence sorted. -/
def vecSearch (xs : ResList) (x : ResVal) : Bool × Nat :=
  match xs with
  | .nil => (false, 0)
  | .cons y ys =>
      match cmpVal y x with
      | .lt =>
          let r := vecSearch ys x
          (r.1, r.2 + 1)
      | .eq => (true, 0)
      | .gt => (false, 0)

/-! ## Host wrappers over the registry -/

/-- `add_host_object`: append to the registry, return the new handle's
index. -/
def addHostObject (R : List ResVal) (o : ResVal) : List ResVal × Nat :=
  (R ++ [o], R.length)

/-- `visit_obj` at map type: the handle must reference a map object. -/
def visitMap (R : List ResVal) (m : Nat) : Except ErrorM ResPairs :=
  match lookupObj R m with
  | some (.vMap ps) => .ok ps
  | _ => .error errBadObjHandle

/-- `visit_obj` at vector type. -/
def visitVec (R : List ResVal) (v : Nat) : Except ErrorM ResList :=
  match lookupObj R v with
  | some (.vVec xs) => .ok xs
  | _ => .error errBadObjHandle

/-- `visit_obj` at bytes type. -/
def visitBytes (R : List ResVal) (b : Nat) : Except ErrorM (List Nat) :=
  match lookupObj R b with
  | some (.vBytes s) => .ok s
  | _ => .error errBadObjHandle

/-- Modelled from the spec: `usize_to_u32val` — fails when the value does
not fit in a `u32`. -/
def usize_to_u32val (n : Nat) : Except ErrorM Nat :=
  if n < 2 ^ 32 then .ok n else .error ⟨.Value, codeArithDomain⟩

/-- The `map_put` host function (host.rs, `fn map_put`): insert into the
map object, register the new map, return its handle.  Keys and values
are already resolved here, so the integrity checks of the original are
vacuous. -/
def map_put (R : List ResVal) (m : Nat) (k v : ResVal) :
    Except ErrorM (List ResVal × Nat) := do
  let ps ← visitMap R m
  .ok (addHostObject R (.vMap (mapInsert ps k v)))

/-- The `map_get` host function: fails with `Object/MissingValue` when
the key is absent. -/
def map_get (R : List ResVal) (m : Nat) (k : ResVal) : Except ErrorM ResVal := do
  let ps ← visitMap R m
  match mapGet ps k with
  | some v => .ok v
  | none => .error ⟨.Object, codeMissingValue⟩

/-- The `map_has` host function. -/
def map_has (R : List ResVal) (m : Nat) (k : ResVal) : Except ErrorM Bool := do
  let ps ← visitMap R m
  .ok (mapHasKey ps k)

/-- The `map_len` host function. -/
def map_len (R : List ResVal) (m : Nat) : Except ErrorM Nat := do
  let ps ← visitMap R m
  usize_to_u32val (mapLen ps)

/-- The `vec_len` host function. -/
def vec_len (R : List ResVal) (v : Nat) : Except ErrorM Nat := do
  let xs ← visitVec R v
  usize_to_u32val (vlistLen xs)

/-- The `vec_push_back` host function. -/
def vec_push_back (R : List ResVal) (v : Nat) (x : ResVal) :
    Except ErrorM (List ResVal × Nat) := do
  let xs ← visitVec R v
  .ok (addHostObject R (.vVec (vlistPushBack xs x)))

/-- The `vec_pop_back` host function. -/
def vec_pop_back (R : List ResVal) (v : Nat) :
    Except ErrorM (List ResVal × Nat) := do
  let xs ← visitVec R v
  match vlistPopBack xs with
  | some ys => .ok (addHostObject R (.vVec ys))
  | none => .error ⟨.Object, codeIndexBounds⟩

/-- Modelled from the spec: `u64_from_binary_search_result` — encode a
binary-search result as a 64-bit word whose bit 63 (the high bit) is set
iff the probe was found and whose low 32 bits carry the index. -/
def u64_from_binary_search_result (found : Bool) (idx : Nat) :
    Except ErrorM Nat := do
  let u ← usize_to_u32val idx
  .ok ((if found then 2 ^ 63 else 0) + u)

/-- The `vec_binary_search` host function (host.rs,
`fn vec_binary_search`). -/
def vec_binary_search (R : List ResVal) (v : Nat) (x : ResVal) :
    Except ErrorM Nat := do
  let xs ← visitVec R v
  let r := vecSearch xs x
  u64_from_binary_search_result r.1 r.2

/-! ## Serialization (canonical XDR representation)

The XDR encoder/decoder (`metered_xdr` module and the XDR library) is
not part of this source tree; it is modelled from the spec as a
canonical, self-delimiting, word-level encoding of host values: a type
tag, then the payload, length-prefixed for the variable-length forms. -/

mutual
/-- Modelled from the spec: canonical serialization of a host value. -/
def encVal : ResVal → List Nat
| .vBool b => [0, cond b 1 0]
| .vVoid => [1]
| .vError t c => [2, t, c]
| .vU32 n => [3, n]
| .vI32 i => [4, cond (i < 0 : Bool) 1 0, i.natAbs]
| .vU64 n => [5, n]
| .vI64 i => [6, cond (i < 0 : Bool) 1 0, i.natAbs]
| .vBytes s => 7 :: s.length :: s
| .vSym s => 8 :: s.length :: s
| .vVec xs => 9 :: vlistLen xs :: encVList xs
| .vMap ps => 10 :: mapLen ps :: encVPairs ps

/-- Serialization of a value sequence (concatenated elements). -/
def encVList : ResList → List Nat
| .nil => []
| .cons x xs => encVal x ++ encVList xs

/-- Serialization of a key-value sequence. -/
def encVPairs : ResPairs → List Nat
| .nil => []
| .cons k v ps => encVal k ++ (encVal v ++ encVPairs ps)
end

mutual
/-- Decoding measure: bound on the decoder fuel a value needs. -/
def msize : ResVal → Nat
| .vVec xs => msizeL xs + 1
| .vMap ps => msizeP ps + 1
| _ => 1

/-- Decoding measure of a value sequence. -/
def msizeL : ResList → Nat
| .nil => 0
| .cons x xs => max (msize x) (msizeL xs) + 1

/-- Decoding measure of a key-value sequence. -/
def msizeP : ResPairs → Nat
| .nil => 0
| .cons k v ps => max (msize k) (max (msize v) (msizeP ps)) + 1
end

mutual
/-- Modelled from the spec: canonical deserialization of a host value;
fuelled to make the recursion evident, `none` on exhausted fuel or
malformed input.  Returns the value and the remaining input. -/
def decVal : Nat → List Nat → Option (ResVal × List Nat)
| 0, _ => none
| _ + 1, 0 :: b :: rest => some (.vBool (b == 1), rest)
| _ + 1, 1 :: rest => some (.vVoid, rest)
| _ + 1, 2 :: t :: c :: rest => some (.vError t c, rest)
| _ + 1, 3 :: n :: rest => some (.vU32 n, rest)
| _ + 1, 4 :: s :: m :: rest =>
    some (.vI32 (if s == 1 then -(m : Int) else (m : Int)), rest)
| _ + 1, 5 :: n :: rest => some (.vU64 n, rest)
| _ + 1, 6 :: s :: m :: rest =>
    some (.vI64 (if s == 1 then -(m : Int) else (m : Int)), rest)
| _ + 1, 7 :: n :: rest =>
    if n ≤ rest.length then some (.vBytes (rest.take n), rest.drop n) else none
| _ + 1, 8 :: n :: rest =>
    if n ≤ rest.length then some (.vSym (rest.take n), rest.drop n) else none
| f + 1, 9 :: n :: rest =>
    match decVList f n rest with
    | some (xs, r) => some (.vVec xs, r)
    | none => none
| f + 1, 10 :: n :: rest =>
    match decVPairs f n rest with
    | some (ps, r) => some (.vMap ps, r)
    | none => none
| _ + 1, _ => none

/-- Deserialize a counted sequence of values. -/
def decVList : Nat → Nat → List Nat → Option (ResList × List Nat)
| _, 0, rest => some (.nil, rest)
| 0, _ + 1, _ => none
| f + 1, n + 1, rest =>
    match decVal f rest with
    | some (x, r1) =>
        match decVList f n r1 with
        | some (xs, r2) => some (.cons x xs, r2)
        | none => none
    | none => none

/-- Deserialize a counted sequence of key-value pairs. -/
def decVPairs : Nat → Nat → List Nat → Option (ResPairs × List Nat)
| _, 0, rest => some (.nil, rest)
| 0, _ + 1, _ => none
| f + 1, n + 1, rest =>
    match decVal f rest with
    | some (k, r1) =>
        match decVal f r1 with
        | some (v, r2) =>
            match decVPairs f n r2 with
            | some (ps, r3) => some (.cons k v ps, r3)
            | none => none
        | none => none
    | none => none
end

/-- The `serialize_to_bytes` host function (host.rs,
`fn serialize_to_bytes`): convert the value to its canonical form and
encode it.  The value is taken here already resolved and the resulting
byte buffer is returned directly rather than through a fresh `Bytes`
handle. -/
def serialize_to_bytes (v : ResVal) : List Nat := encVal v

/-- The `deserialize_from_bytes` host function (host.rs,
`fn deserialize_from_bytes`): decode a canonical encoding back to a host
value; fails on malformed or trailing input. -/
def deserialize_from_bytes (b : List Nat) : Except ErrorM ResVal :=
  match decVal (b.length + 1) b with
  | some (v, []) => .ok v
  | _ => .error ⟨.Value, codeInvalidInput⟩

/-! ## Storage and expiration bumping -/

/-- The storage class of a contract-data key (spec section 4.5). -/
inductive StorageTypeM : Type
| Temporary
| Persistent
| Instance
deriving DecidableEq

/-- A ledger entry for contract data: a value and an expiration ledger. -/
structure StorageEntryM : Type where
  val : ResVal
  expiration : Nat
deriving DecidableEq

/-- The key→entry store, keyed by storage class and resolved key. -/
abbrev StorageM : Type := List ((StorageTypeM × ResVal) × StorageEntryM)

/-- Modelled from the spec: `Storage::bump` (storage module, spec
section 4.5) — if the entry's current expiration is below the low
watermark, extend it to at least the high watermark, else leave it;
fails with `Storage/MissingValue` on an absent key. -/
def storageBump (s : StorageM) (k : StorageTypeM × ResVal) (lo hi : Nat) :
    Except ErrorM StorageM :=
  match s with
  | [] => .error ⟨.Storage, codeMissingValue⟩
  | (k', e) :: rest =>
      if k' = k then
        if e.expiration < lo then
          .ok ((k', ⟨e.val, max e.expiration hi⟩) :: rest)
        else
          .ok ((k', e) :: rest)
      else
        match storageBump rest k lo hi with
        | .ok rest' => .ok ((k', e) :: rest')
        | .error err => .error err

/-- The `bump_contract_data` host function (host.rs,
`fn bump_contract_data`): checks the key's integrity, rejects the
`Instance` storage type with `Storage/InvalidAction` before touching the
storage (instance storage is bumped only through
`bump_current_contract_instance_and_code`), and otherwise delegates to
the storage bump. -/
def bump_contract_data (R : List ResVal) (s : StorageM) (k : ValM)
    (t : StorageTypeM) (lo hi : Nat) : Except ErrorM StorageM := do
  _ ← checkIntegrityE R k
  if t = StorageTypeM.Instance then
    .error ⟨.Storage, codeInvalidAction⟩
  else
    match resolveVal R k with
    | some kr => storageBump s (t, kr) lo hi
    | none => .error ⟨.Value, codeInvalidInput⟩

/-! ## fail_with_error and try_call -/

/-- The `fail_with_error` host function (host.rs,
`fn fail_with_error`): a `Contract`-typed error fails with that very
error; any other error type is rejected with
`Context/UnexpectedType`. -/
def fail_with_error (error : ErrorM) : Except ErrorM Unit :=
  if error.etype = ErrTypeM.Contract then
    .error error
  else
    .error ⟨.Context, codeUnexpectedType⟩

/-- The guest-facing `Val` form of an error. -/
def errorToVal (e : ErrorM) : ValM := .vmError (errTypeOrd e.etype) e.code

/-- Modelled from the spec: `HostError::is_recoverable` (error module) —
non-recoverable errors are budget exhaustion and internal-invariant
violations, which always propagate (spec sections 4.7 and 7). -/
def isRecoverable (e : ErrorM) : Bool :=
  !(e.etype = ErrTypeM.Budget : Bool) && !(e.code = codeInternalError : Bool)

/-- The `try_call` host function (host.rs, `fn try_call`), applied to
the outcome of the callee (`call_n_internal` is dispatched by the frame
module, outside this tree): success and the callee's value pass
through; a recoverable error becomes an error `Val` — verbatim for a
`Contract`-typed error, the single `Context/InvalidAction` error
otherwise; a non-recoverable error propagates. -/
def try_call (calleeRes : Except ErrorM ValM) : Except ErrorM ValM :=
  match calleeRes with
  | .ok rv => .ok rv
  | .error e =>
      if isRecoverable e then
        if e.etype = ErrTypeM.Contract then
          .ok (errorToVal e)
        else
          .ok (errorToVal ⟨.Context, codeInvalidAction⟩)
      else
        .error e

/-! ## The built-in token contract (native_contract/token/contract.rs) -/

/-- Modelled from the spec: the token contract's own error codes
(`contract_error.rs`, outside this tree); carried as the code of a
`Contract`-typed error. -/
inductive ContractErrorM : Type
| InternalError
| OperationNotSupportedError
| AlreadyInitializedError
| UnauthorizedError
| NegativeAmountError
| AllowanceError
| BalanceError
| BalanceDeauthorizedError
| OverflowError
| TrustlineMissingError
deriving DecidableEq

/-- Numeric code of a token contract error. -/
def contractErrCode : ContractErrorM → Nat
| .InternalError => 1
| .OperationNotSupportedError => 2
| .AlreadyInitializedError => 3
| .UnauthorizedError => 4
| .NegativeAmountError => 5
| .AllowanceError => 6
| .BalanceError => 7
| .BalanceDeauthorizedError => 8
| .OverflowError => 9
| .TrustlineMissingError => 10

/-- A token contract error as a host error. -/
def contractErr (c : ContractErrorM) : ErrorM := ⟨.Contract, contractErrCode c⟩

/-- The asset wrapped by the token contract. -/
inductive AssetInfoM : Type
| Native
| AlphaNum4 (code issuer : List Nat)
| AlphaNum12 (code issuer : List Nat)
deriving DecidableEq

/-- Typed events emitted by the token contract. -/
inductive TokenEventM : Type
| approveE (ownr spender : Nat) (amount : Int) (expirationLedger : Nat)
| transferE (src dst : Nat) (amount : Int)
| burnE (src : Nat) (amount : Int)
| mintE (admin dst : Nat) (amount : Int)
| clawbackE (admin src : Nat) (amount : Int)
| setAuthorizedE (admin addr : Nat) (authorize : Bool)
| setAdminE (prevAdmin nextAdmin : Nat)
deriving DecidableEq

/-- State touched by the token contract: balances and their
deauthorization flags, allowances with expirations, the set of addresses
whose `require_auth` succeeds in the current invocation, the event
buffer, the asset info and administrator from instance storage, and a
count of instance-and-code bumps performed. -/
structure TokenStateM : Type where
  balances : List (Nat × Int)
  deauthorized : List Nat
  allowances : List ((Nat × Nat) × (Int × Nat))
  authed : List Nat
  events : List TokenEventM
  assetInfo : AssetInfoM
  admin : Option Nat
  instanceBumps : Nat
deriving DecidableEq

/-- Maximum value of an `i128` balance. -/
def i128Max : Int := 2 ^ 127 - 1

/-- Modelled from the spec: `require_auth` on an address (authorization
manager) — succeeds exactly for addresses authorized for this
invocation. -/
def requireAuth (st : TokenStateM) (a : Nat) : Except ErrorM Unit :=
  if a ∈ st.authed then .ok () else .error ⟨.Auth, codeInvalidAction⟩

/-- Modelled from the spec: `read_balance` (balance module) — zero when
absent. -/
def readBalance (st : TokenStateM) (a : Nat) : Int :=
  match st.balances.lookup a with
  | some b => b
  | none => 0

/-- Replace an address's balance. -/
def writeBalance (st : TokenStateM) (a : Nat) (b : Int) : TokenStateM :=
  { st with balances := (a, b) :: st.balances.eraseP (fun p => p.1 == a) }

/-- Modelled from the spec: `spend_balance` (balance module) — the
address must not be deauthorized and must hold at least the amount. -/
def spendBalance (st : TokenStateM) (a : Nat) (amount : Int) :
    Except ErrorM TokenStateM :=
  if a ∈ st.deauthorized then
    .error (contractErr .BalanceDeauthorizedError)
  else if readBalance st a < amount then
    .error (contractErr .BalanceError)
  else
    .ok (writeBalance st a (readBalance st a - amount))

/-- Modelled from the spec: `receive_balance` (balance module) — the
address must not be deauthorized; the new balance must not overflow
`i128`. -/
def receiveBalance (st : TokenStateM) (a : Nat) (amount : Int) :
    Except ErrorM TokenStateM :=
  if a ∈ st.deauthorized then
    .error (contractErr .BalanceDeauthorizedError)
  else if i128Max < readBalance st a + amount then
    .error (contractErr .OverflowError)
  else
    .ok (writeBalance st a (readBalance st a + amount))

/-- Modelled from the spec: `read_allowance` (allowance module) — zero
when absent. -/
def readAllowance (st : TokenStateM) (ownr spender : Nat) : Int × Nat :=
  match st.allowances.lookup (ownr, spender) with
  | some p => p
  | none => (0, 0)

/-- Modelled from the spec: `write_allowance` (allowance module). -/
def writeAllowance (st : TokenStateM) (ownr spender : Nat) (amount : Int)
    (expirationLedger : Nat) : TokenStateM :=
  { st with
    allowances :=
      ((ownr, spender), (amount, expirationLedger)) ::
        st.allowances.eraseP (fun p => p.1 == (ownr, spender)) }

/-- Modelled from the spec: `spend_allowance` (allowance module) — the
spender's allowance from the owner must cover the amount. -/
def spendAllowance (st : TokenStateM) (ownr spender : Nat) (amount : Int) :
    Except ErrorM TokenStateM :=
  let (allow, exp) := readAllowance st ownr spender
  if allow < amount then
    .error (contractErr .AllowanceError)
  else
    .ok (writeAllowance st ownr spender (allow - amount) exp)

/-- Modelled from the spec: `read_administrator` (admin module) — fails
when no administrator was set (the Native token has none). -/
def readAdministrator (st : TokenStateM) : Except ErrorM Nat :=
  match st.admin with
  | some a => .ok a
  | none => .error ⟨.Storage, codeMissingValue⟩

/-- Modelled from the spec: `read_asset_info` (asset_info module). -/
def readAssetInfo (st : TokenStateM) : Except ErrorM AssetInfoM :=
  .ok st.assetInfo

/-- `bump_current_contract_instance_and_code` as the token contract uses
it; the bump itself acts on ledger expirations, recorded here as a
count. -/
def bumpInstanceAndCode (st : TokenStateM) : TokenStateM :=
  { st with instanceBumps := st.instanceBumps + 1 }

/-- Append a token event to the event buffer. -/
def pushEvent (st : TokenStateM) (e : TokenEventM) : TokenStateM :=
  { st with events := st.events ++ [e] }

/-- `check_nonnegative_amount` (contract.rs): a negative amount is
rejected with the `NegativeAmountError` contract error. -/
def check_nonnegative_amount (amount : Int) : Except ErrorM Unit :=
  if amount < 0 then
    .error (contractErr .NegativeAmountError)
  else
    .ok ()

/-- `check_non_native` (contract.rs): rejects the operation with the
`OperationNotSupportedError` contract error when the wrapped asset is
Native. -/
def check_non_native (st : TokenStateM) : Except ErrorM Unit := do
  match ← readAssetInfo st with
  | .Native => .error (contractErr .OperationNotSupportedError)
  | .AlphaNum4 _ _ => .ok ()
  | .AlphaNum12 _ _ => .ok ()

namespace Token

/-- `Token::approve` (contract.rs): nonnegative check, owner auth,
instance bump, write allowance, event. -/
def approve (st : TokenStateM) (ownr spender : Nat) (amount : Int)
    (expirationLedger : Nat) : Except ErrorM TokenStateM := do
  _ ← check_nonnegative_amount amount
  _ ← requireAuth st ownr
  let st := bumpInstanceAndCode st
  let st := writeAllowance st ownr spender amount expirationLedger
  .ok (pushEvent st (.approveE ownr spender amount expirationLedger))

/-- `Token::transfer` (contract.rs): nonnegative check, source auth,
instance bump, spend from source, receive at destination, event. -/
def transfer (st : TokenStateM) (src dst : Nat) (amount : Int) :
    Except ErrorM TokenStateM := do
  _ ← check_nonnegative_amount amount
  _ ← requireAuth st src
  let st := bumpInstanceAndCode st
  let st ← spendBalance st src amount
  let st ← receiveBalance st dst amount
  .ok (pushEvent st (.transferE src dst amount))

/-- `Token::transfer_from` (contract.rs): nonnegative check, spender
auth, instance bump, spend allowance, spend from source, receive at
destination, event. -/
def transfer_from (st : TokenStateM) (spender src dst : Nat) (amount : Int) :
    Except ErrorM TokenStateM := do
  _ ← check_nonnegative_amount amount
  _ ← requireAuth st spender
  let st := bumpInstanceAndCode st
  let st ← spendAllowance st src spender amount
  let st ← spendBalance st src amount
  let st ← receiveBalance st dst amount
  .ok (pushEvent st (.transferE src dst amount))

/-- `Token::burn` (contract.rs): nonnegative check, non-native check,
source auth, instance bump, spend from source, event. -/
def burn (st : TokenStateM) (src : Nat) (amount : Int) :
    Except ErrorM TokenStateM := do
  _ ← check_nonnegative_amount amount
  _ ← check_non_native st
  _ ← requireAuth st src
  let st := bumpInstanceAndCode st
  let st ← spendBalance st src amount
  .ok (pushEvent st (.burnE src amount))

/-- `Token::burn_from` (contract.rs): nonnegative check, non-native
check, spender auth, instance bump, spend allowance, spend from source,
event. -/
def burn_from (st : TokenStateM) (spender src : Nat) (amount : Int) :
    Except ErrorM TokenStateM := do
  _ ← check_nonnegative_amount amount
  _ ← check_non_native st
  _ ← requireAuth st spender
  let st := bumpInstanceAndCode st
  let st ← spendAllowance st src spender amount
  let st ← spendBalance st src amount
  .ok (pushEvent st (.burnE src amount))

/-- Modelled from the spec: `check_clawbackable` (balance module) — the
address's trustline must allow clawback; the model keeps only the
trustline-missing failure mode for the Native asset. -/
def checkClawbackable (st : TokenStateM) (_a : Nat) : Except ErrorM Unit :=
  match st.assetInfo with
  | .Native => .error (contractErr .OperationNotSupportedError)
  | _ => .ok ()

/-- `Token::clawback` (contract.rs): nonnegative check, clawbackable
check, admin auth, instance bump, spend without authorization check,
event. -/
def clawback (st : TokenStateM) (src : Nat) (amount : Int) :
    Except ErrorM TokenStateM := do
  _ ← check_nonnegative_amount amount
  _ ← checkClawbackable st src
  let admin ← readAdministrator st
  _ ← requireAuth st admin
  let st := bumpInstanceAndCode st
  if readBalance st src < amount then
    .error (contractErr .BalanceError)
  else
    let st := writeBalance st src (readBalance st src - amount)
    .ok (pushEvent st (.clawbackE admin src amount))

/-- `Token::mint` (contract.rs): nonnegative check, admin auth, instance
bump, receive at destination, event. -/
def mint (st : TokenStateM) (dst : Nat) (amount : Int) :
    Except ErrorM TokenStateM := do
  _ ← check_nonnegative_amount amount
  let admin ← readAdministrator st
  _ ← requireAuth st admin
  let st := bumpInstanceAndCode st
  let st ← receiveBalance st dst amount
  .ok (pushEvent st (.mintE admin dst amount))

end Token

/-! # Theorems

## Groundwork: the comparison is a total order -/

theorem then_eq_eq {a b : Ordering} : a.then b = .eq ↔ a = .eq ∧ b = .eq := by
  cases a <;> simp [Ordering.then]

theorem then_eq_lt {a b : Ordering} :
    a.then b = .lt ↔ a = .lt ∨ (a = .eq ∧ b = .lt) := by
  cases a <;> simp [Ordering.then]

theorem then_swap {a b : Ordering} : (a.then b).swap = a.swap.then b.swap := by
  cases a <;> cases b <;> rfl

theorem cmpNat_eq_iff {a b : Nat} : cmpNat a b = .eq ↔ a = b := by
  unfold cmpNat; split <;> [skip; split] <;> simp <;> omega

theorem cmpNat_lt_iff {a b : Nat} : cmpNat a b = .lt ↔ a < b := by
  unfold cmpNat; split <;> [skip; split] <;> simp <;> omega

theorem cmpNat_gt_iff {a b : Nat} : cmpNat a b = .gt ↔ b < a := by
  unfold cmpNat; split <;> [skip; split] <;> simp <;> omega

theorem cmpNat_swap {a b : Nat} : cmpNat b a = (cmpNat a b).swap := by
  unfold cmpNat
  split_ifs <;> first | rfl | omega

theorem cmpInt_eq_iff {a b : Int} : cmpInt a b = .eq ↔ a = b := by
  unfold cmpInt; split <;> [skip; split] <;> simp <;> omega

theorem cmpInt_lt_iff {a b : Int} : cmpInt a b = .lt ↔ a < b := by
  unfold cmpInt; split <;> [skip; split] <;> simp <;> omega

theorem cmpInt_swap {a b : Int} : cmpInt b a = (cmpInt a b).swap := by
  unfold cmpInt
  split_ifs <;> first | rfl | omega

theorem cmpBool_eq_iff {a b : Bool} : cmpBool a b = .eq ↔ a = b := by
  cases a <;> cases b <;> simp [cmpBool]

theorem cmpBool_swap {a b : Bool} : cmpBool b a = (cmpBool a b).swap := by
  cases a <;> cases b <;> rfl

theorem cmpNatList_eq_iff {a b : List Nat} : cmpNatList a b = .eq ↔ a = b := by
  induction a generalizing b with
  | nil => cases b <;> simp [cmpNatList]
  | cons x xs ih =>
      cases b with
      | nil => simp [cmpNatList]
      | cons y ys => simp [cmpNatList, then_eq_eq, cmpNat_eq_iff, ih]

theorem cmpNatList_swap {a b : List Nat} :
    cmpNatList b a = (cmpNatList a b).swap := by
  induction a generalizing b with
  | nil => cases b <;> rfl
  | cons x xs ih =>
      cases b with
      | nil => rfl
      | cons y ys =>
          show (cmpNat y x).then (cmpNatList ys xs) =
            ((cmpNat x y).then (cmpNatList xs ys)).swap
          rw [then_swap, ← cmpNat_swap, ← ih]

theorem cmpNatList_lt_trans {a b c : List Nat}
    (hab : cmpNatList a b = .lt) (hbc : cmpNatList b c = .lt) :
    cmpNatList a c = .lt := by
  induction a generalizing b c with
  | nil =>
      cases b with
      | nil => exact absurd hab (by decide)
      | cons y ys =>
          cases c with
          | nil =>
              rw [show cmpNatList (y :: ys) [] = .gt from rfl] at hbc
              cases hbc
          | cons z zs => rfl
  | cons x xs ih =>
      cases b with
      | nil => simp [cmpNatList] at hab
      | cons y ys =>
          cases c with
          | nil => simp [cmpNatList] at hbc
          | cons z zs =>
              simp [cmpNatList, then_eq_lt, cmpNat_lt_iff, cmpNat_eq_iff] at hab hbc ⊢
              rcases hab with h1 | ⟨rfl, h1⟩
              · rcases hbc with h2 | ⟨rfl, h2⟩
                · exact Or.inl (Nat.lt_trans h1 h2)
                · exact Or.inl h1
              · rcases hbc with h2 | ⟨rfl, h2⟩
                · exact Or.inl h2
                · exact Or.inr ⟨rfl, ih h1 h2⟩

theorem cmpVal_dBool (a b : Bool) :
    cmpVal (.vBool a) (.vBool b) = cmpBool a b := rfl

theorem cmpVal_dVoid : cmpVal .vVoid .vVoid = .eq := rfl

theorem cmpVal_dError (t c t' c' : Nat) :
    cmpVal (.vError t c) (.vError t' c') = (cmpNat t t').then (cmpNat c c') := rfl

theorem cmpVal_dU32 (a b : Nat) : cmpVal (.vU32 a) (.vU32 b) = cmpNat a b := rfl

theorem cmpVal_dI32 (a b : Int) : cmpVal (.vI32 a) (.vI32 b) = cmpInt a b := rfl

theorem cmpVal_dU64 (a b : Nat) : cmpVal (.vU64 a) (.vU64 b) = cmpNat a b := rfl

theorem cmpVal_dI64 (a b : Int) : cmpVal (.vI64 a) (.vI64 b) = cmpInt a b := rfl

theorem cmpVal_dBytes (a b : List Nat) :
    cmpVal (.vBytes a) (.vBytes b) = cmpNatList a b := rfl

theorem cmpVal_dSym (a b : List Nat) :
    cmpVal (.vSym a) (.vSym b) = cmpNatList a b := rfl

theorem cmpVal_dVec (a b : ResList) :
    cmpVal (.vVec a) (.vVec b) = cmpVList a b := rfl

theorem cmpVal_dMap (a b : ResPairs) :
    cmpVal (.vMap a) (.vMap b) = cmpVPairs a b := rfl

theorem cmpVList_nil_nil : cmpVList .nil .nil = .eq := rfl

theorem cmpVList_nil_cons (y : ResVal) (ys : ResList) :
    cmpVList .nil (.cons y ys) = .lt := rfl

theorem cmpVList_cons_nil (x : ResVal) (xs : ResList) :
    cmpVList (.cons x xs) .nil = .gt := rfl

theorem cmpVList_cons_cons (x y : ResVal) (xs ys : ResList) :
    cmpVList (.cons x xs) (.cons y ys) = (cmpVal x y).then (cmpVList xs ys) := rfl

theorem cmpVPairs_nil_nil : cmpVPairs .nil .nil = .eq := rfl

theorem cmpVPairs_nil_cons (k v : ResVal) (qs : ResPairs) :
    cmpVPairs .nil (.cons k v qs) = .lt := rfl

theorem cmpVPairs_cons_nil (k v : ResVal) (ps : ResPairs) :
    cmpVPairs (.cons k v ps) .nil = .gt := rfl

theorem cmpVPairs_cons_cons (k v k' v' : ResVal) (ps qs : ResPairs) :
    cmpVPairs (.cons k v ps) (.cons k' v' qs) =
      ((cmpVal k k').then (cmpVal v v')).then (cmpVPairs ps qs) := rfl

/-- Values of different ScVal types compare by type ordinal
(spec section 4.4 rule 3). -/
theorem cmpVal_tag_ne (x y : ResVal) (h : tagOrd x ≠ tagOrd y) :
    cmpVal x y = cmpNat (tagOrd x) (tagOrd y) := by
  cases x <;> cases y <;> first | rfl | exact absurd rfl h

mutual
theorem cmpVal_eq_iff (x y : ResVal) : cmpVal x y = .eq ↔ x = y := by
  cases x <;> cases y <;>
    first
    | (simp only [cmpVal_dBool, cmpBool_eq_iff, ResVal.vBool.injEq] <;> rfl) <;> done
    | (simp [cmpVal_dVoid]; done)
    | (simp only [cmpVal_dError, then_eq_eq, cmpNat_eq_iff,
        ResVal.vError.injEq] <;> rfl) <;> done
    | (simp only [cmpVal_dU32, cmpNat_eq_iff, ResVal.vU32.injEq] <;> rfl) <;> done
    | (simp only [cmpVal_dI32, cmpInt_eq_iff, ResVal.vI32.injEq] <;> rfl) <;> done
    | (simp only [cmpVal_dU64, cmpNat_eq_iff, ResVal.vU64.injEq] <;> rfl) <;> done
    | (simp only [cmpVal_dI64, cmpInt_eq_iff, ResVal.vI64.injEq] <;> rfl) <;> done
    | (simp only [cmpVal_dBytes, cmpNatList_eq_iff, ResVal.vBytes.injEq] <;> rfl) <;>
        done
    | (simp only [cmpVal_dSym, cmpNatList_eq_iff, ResVal.vSym.injEq] <;> rfl) <;> done
    | (simp only [cmpVal_dVec, ResVal.vVec.injEq]; exact cmpVList_eq_iff _ _)
    | (simp only [cmpVal_dMap, ResVal.vMap.injEq]; exact cmpVPairs_eq_iff _ _)
    | exact ⟨(fun h => nomatch h), (fun h => nomatch h)⟩

theorem cmpVList_eq_iff (xs ys : ResList) : cmpVList xs ys = .eq ↔ xs = ys := by
  cases xs with
  | nil => cases ys <;> simp [cmpVList_nil_nil, cmpVList_nil_cons]
  | cons x xs =>
      cases ys with
      | nil => simp [cmpVList_cons_nil]
      | cons y ys =>
          rw [cmpVList_cons_cons, then_eq_eq, cmpVal_eq_iff x y,
            cmpVList_eq_iff xs ys]
          simp

theorem cmpVPairs_eq_iff (ps qs : ResPairs) : cmpVPairs ps qs = .eq ↔ ps = qs := by
  cases ps with
  | nil => cases qs <;> simp [cmpVPairs_nil_nil, cmpVPairs_nil_cons]
  | cons k v ps =>
      cases qs with
      | nil => simp [cmpVPairs_cons_nil]
      | cons k' v' qs =>
          rw [cmpVPairs_cons_cons, then_eq_eq, then_eq_eq, cmpVal_eq_iff k k',
            cmpVal_eq_iff v v', cmpVPairs_eq_iff ps qs]
          simp [and_assoc]
end

/-- The comparison is reflexive-equal on identical values. -/
theorem cmpVal_refl (x : ResVal) : cmpVal x x = .eq := (cmpVal_eq_iff x x).mpr rfl

mutual
theorem cmpVal_swap (x y : ResVal) : cmpVal y x = (cmpVal x y).swap := by
  cases x <;> cases y <;>
    first
    | rfl
    | exact cmpBool_swap
    | exact cmpInt_swap
    | exact cmpNatList_swap
    | (rw [cmpVal_dError, cmpVal_dError, then_swap, ← cmpNat_swap, ← cmpNat_swap])
    | (rw [cmpVal_dVec, cmpVal_dVec]; exact cmpVList_swap _ _)
    | (rw [cmpVal_dMap, cmpVal_dMap]; exact cmpVPairs_swap _ _)
    | exact cmpNat_swap

theorem cmpVList_swap (xs ys : ResList) : cmpVList ys xs = (cmpVList xs ys).swap := by
  cases xs with
  | nil => cases ys <;> rfl
  | cons x xs =>
      cases ys with
      | nil => rfl
      | cons y ys =>
          rw [cmpVList_cons_cons, cmpVList_cons_cons, then_swap,
            cmpVal_swap x y, cmpVList_swap xs ys]

theorem cmpVPairs_swap (ps qs : ResPairs) :
    cmpVPairs qs ps = (cmpVPairs ps qs).swap := by
  cases ps with
  | nil => cases qs <;> rfl
  | cons k v ps =>
      cases qs with
      | nil => rfl
      | cons k' v' qs =>
          rw [cmpVPairs_cons_cons, cmpVPairs_cons_cons, then_swap, then_swap,
            cmpVal_swap k k', cmpVal_swap v v', cmpVPairs_swap ps qs]
end

/-- A value of a strictly smaller ScVal type ordinal compares less. -/
theorem cmpVal_tag_lt (x y : ResVal) (h : tagOrd x < tagOrd y) :
    cmpVal x y = .lt := by
  cases x <;> cases y <;> first | rfl | simp [tagOrd] at h

/-- A comparison that comes out `lt` never goes against the ScVal type
ordinal order. -/
theorem cmpVal_lt_tag_le (x y : ResVal) (h : cmpVal x y = .lt) :
    tagOrd x ≤ tagOrd y := by
  cases x <;> cases y <;> first | (cases h; done) | simp [tagOrd]

theorem tag_inv_bool (x : ResVal) (h : tagOrd x = 0) : ∃ b, x = .vBool b := by
  cases x <;> first | exact ⟨_, rfl⟩ | simp [tagOrd] at h

theorem tag_inv_void (x : ResVal) (h : tagOrd x = 1) : x = .vVoid := by
  cases x <;> first | rfl | simp [tagOrd] at h

theorem tag_inv_error (x : ResVal) (h : tagOrd x = 2) : ∃ t c, x = .vError t c := by
  cases x <;> first | exact ⟨_, _, rfl⟩ | simp [tagOrd] at h

theorem tag_inv_u32 (x : ResVal) (h : tagOrd x = 3) : ∃ n, x = .vU32 n := by
  cases x <;> first | exact ⟨_, rfl⟩ | simp [tagOrd] at h

theorem tag_inv_i32 (x : ResVal) (h : tagOrd x = 4) : ∃ i, x = .vI32 i := by
  cases x <;> first | exact ⟨_, rfl⟩ | simp [tagOrd] at h

theorem tag_inv_u64 (x : ResVal) (h : tagOrd x = 5) : ∃ n, x = .vU64 n := by
  cases x <;> first | exact ⟨_, rfl⟩ | simp [tagOrd] at h

theorem tag_inv_i64 (x : ResVal) (h : tagOrd x = 6) : ∃ i, x = .vI64 i := by
  cases x <;> first | exact ⟨_, rfl⟩ | simp [tagOrd] at h

theorem tag_inv_bytes (x : ResVal) (h : tagOrd x = 7) : ∃ s, x = .vBytes s := by
  cases x <;> first | exact ⟨_, rfl⟩ | simp [tagOrd] at h

theorem tag_inv_sym (x : ResVal) (h : tagOrd x = 8) : ∃ s, x = .vSym s := by
  cases x <;> first | exact ⟨_, rfl⟩ | simp [tagOrd] at h

theorem tag_inv_vec (x : ResVal) (h : tagOrd x = 9) : ∃ xs, x = .vVec xs := by
  cases x <;> first | exact ⟨_, rfl⟩ | simp [tagOrd] at h

theorem tag_inv_map (x : ResVal) (h : tagOrd x = 10) : ∃ ps, x = .vMap ps := by
  cases x <;> first | exact ⟨_, rfl⟩ | simp [tagOrd] at h

theorem cmpBool_lt_trans {a b c : Bool} (h1 : cmpBool a b = .lt)
    (h2 : cmpBool b c = .lt) : cmpBool a c = .lt := by
  revert h1 h2; cases a <;> cases b <;> cases c <;> decide

theorem cmpNat_lt_trans {a b c : Nat} (h1 : cmpNat a b = .lt)
    (h2 : cmpNat b c = .lt) : cmpNat a c = .lt := by
  rw [cmpNat_lt_iff] at h1 h2 ⊢; omega

theorem cmpInt_lt_trans {a b c : Int} (h1 : cmpInt a b = .lt)
    (h2 : cmpInt b c = .lt) : cmpInt a c = .lt := by
  rw [cmpInt_lt_iff] at h1 h2 ⊢; omega

theorem natPair_lt_trans {t1 c1 t2 c2 t3 c3 : Nat}
    (h1 : (cmpNat t1 t2).then (cmpNat c1 c2) = .lt)
    (h2 : (cmpNat t2 t3).then (cmpNat c2 c3) = .lt) :
    (cmpNat t1 t3).then (cmpNat c1 c3) = .lt := by
  rw [then_eq_lt] at h1 h2 ⊢
  rw [cmpNat_lt_iff, cmpNat_lt_iff] at h1 h2 ⊢
  rw [cmpNat_eq_iff] at h1 h2 ⊢
  omega

mutual
theorem cmpVal_lt_trans (x y z : ResVal) (hxy : cmpVal x y = .lt)
    (hyz : cmpVal y z = .lt) : cmpVal x z = .lt := by
  rcases Nat.lt_or_ge (tagOrd x) (tagOrd z) with hlt | hge
  · exact cmpVal_tag_lt x z hlt
  · have h1 := cmpVal_lt_tag_le x y hxy
    have h2 := cmpVal_lt_tag_le y z hyz
    have exy : tagOrd x = tagOrd y := Nat.le_antisymm h1 (Nat.le_trans h2 hge)
    have eyz : tagOrd y = tagOrd z := Nat.le_antisymm h2 (Nat.le_trans hge h1)
    cases x with
    | vBool a =>
        obtain ⟨b, rfl⟩ := tag_inv_bool y exy.symm
        obtain ⟨c, rfl⟩ := tag_inv_bool z eyz.symm
        exact cmpBool_lt_trans hxy hyz
    | vVoid =>
        obtain rfl := tag_inv_void y exy.symm
        obtain rfl := tag_inv_void z eyz.symm
        exact hyz
    | vError t c =>
        obtain ⟨t', c', rfl⟩ := tag_inv_error y exy.symm
        obtain ⟨t'', c'', rfl⟩ := tag_inv_error z eyz.symm
        exact natPair_lt_trans hxy hyz
    | vU32 a =>
        obtain ⟨b, rfl⟩ := tag_inv_u32 y exy.symm
        obtain ⟨c, rfl⟩ := tag_inv_u32 z eyz.symm
        exact cmpNat_lt_trans hxy hyz
    | vI32 a =>
        obtain ⟨b, rfl⟩ := tag_inv_i32 y exy.symm
        obtain ⟨c, rfl⟩ := tag_inv_i32 z eyz.symm
        exact cmpInt_lt_trans hxy hyz
    | vU64 a =>
        obtain ⟨b, rfl⟩ := tag_inv_u64 y exy.symm
        obtain ⟨c, rfl⟩ := tag_inv_u64 z eyz.symm
        exact cmpNat_lt_trans hxy hyz
    | vI64 a =>
        obtain ⟨b, rfl⟩ := tag_inv_i64 y exy.symm
        obtain ⟨c, rfl⟩ := tag_inv_i64 z eyz.symm
        exact cmpInt_lt_trans hxy hyz
    | vBytes a =>
        obtain ⟨b, rfl⟩ := tag_inv_bytes y exy.symm
        obtain ⟨c, rfl⟩ := tag_inv_bytes z eyz.symm
        exact cmpNatList_lt_trans hxy hyz
    | vSym a =>
        obtain ⟨b, rfl⟩ := tag_inv_sym y exy.symm
        obtain ⟨c, rfl⟩ := tag_inv_sym z eyz.symm
        exact cmpNatList_lt_trans hxy hyz
    | vVec a =>
        obtain ⟨b, rfl⟩ := tag_inv_vec y exy.symm
        obtain ⟨c, rfl⟩ := tag_inv_vec z eyz.symm
        exact cmpVList_lt_trans a b c hxy hyz
    | vMap a =>
        obtain ⟨b, rfl⟩ := tag_inv_map y exy.symm
        obtain ⟨c, rfl⟩ := tag_inv_map z eyz.symm
        exact cmpVPairs_lt_trans a b c hxy hyz

theorem cmpVList_lt_trans (xs ys zs : ResList) (hxy : cmpVList xs ys = .lt)
    (hyz : cmpVList ys zs = .lt) : cmpVList xs zs = .lt := by
  cases xs with
  | nil =>
      cases ys with
      | nil => exact nomatch hxy
      | cons y ys =>
          cases zs with
          | nil => exact nomatch hyz
          | cons z zs => rfl
  | cons x xs =>
      cases ys with
      | nil => exact nomatch hxy
      | cons y ys =>
          cases zs with
          | nil => exact nomatch hyz
          | cons z zs =>
              rw [cmpVList_cons_cons, then_eq_lt] at hxy hyz ⊢
              rcases hxy with h1 | ⟨e1, h1⟩
              · rcases hyz with h2 | ⟨e2, h2⟩
                · exact Or.inl (cmpVal_lt_trans x y z h1 h2)
                · obtain rfl := (cmpVal_eq_iff y z).mp e2
                  exact Or.inl h1
              · obtain rfl := (cmpVal_eq_iff x y).mp e1
                rcases hyz with h2 | ⟨e2, h2⟩
                · exact Or.inl h2
                · obtain rfl := (cmpVal_eq_iff x z).mp e2
                  exact Or.inr ⟨cmpVal_refl x, cmpVList_lt_trans xs ys zs h1 h2⟩

theorem cmpVPairs_lt_trans (ps qs rs : ResPairs) (hxy : cmpVPairs ps qs = .lt)
    (hyz : cmpVPairs qs rs = .lt) : cmpVPairs ps rs = .lt := by
  cases ps with
  | nil =>
      cases qs with
      | nil => exact nomatch hxy
      | cons k' v' qs =>
          cases rs with
          | nil => exact nomatch hyz
          | cons k'' v'' rs => rfl
  | cons k v ps =>
      cases qs with
      | nil => exact nomatch hxy
      | cons k' v' qs =>
          cases rs with
          | nil => exact nomatch hyz
          | cons k'' v'' rs =>
              rw [cmpVPairs_cons_cons, then_eq_lt, then_eq_lt] at hxy hyz ⊢
              rcases hxy with (h1 | ⟨e1, h1⟩) | ⟨e1, h1⟩
              · rcases hyz with (h2 | ⟨e2, h2⟩) | ⟨e2, h2⟩
                · exact Or.inl (Or.inl (cmpVal_lt_trans k k' k'' h1 h2))
                · obtain rfl := (cmpVal_eq_iff k' k'').mp e2
                  exact Or.inl (Or.inl h1)
                · rw [then_eq_eq] at e2
                  obtain rfl := (cmpVal_eq_iff k' k'').mp e2.1
                  exact Or.inl (Or.inl h1)
              · obtain rfl := (cmpVal_eq_iff k k').mp e1
                rcases hyz with (h2 | ⟨e2, h2⟩) | ⟨e2, h2⟩
                · exact Or.inl (Or.inl h2)
                · obtain rfl := (cmpVal_eq_iff k k'').mp e2
                  exact Or.inl (Or.inr ⟨cmpVal_refl k, cmpVal_lt_trans v v' v'' h1 h2⟩)
                · rw [then_eq_eq] at e2
                  obtain rfl := (cmpVal_eq_iff k k'').mp e2.1
                  obtain rfl := (cmpVal_eq_iff v' v'').mp e2.2
                  exact Or.inl (Or.inr ⟨cmpVal_refl k, h1⟩)
              · rw [then_eq_eq] at e1
                obtain rfl := (cmpVal_eq_iff k k').mp e1.1
                obtain rfl := (cmpVal_eq_iff v v').mp e1.2
                rcases hyz with (h2 | ⟨e2, h2⟩) | ⟨e2, h2⟩
                · exact Or.inl (Or.inl h2)
                · obtain rfl := (cmpVal_eq_iff k k'').mp e2
                  exact Or.inl (Or.inr ⟨cmpVal_refl k, h2⟩)
                · rw [then_eq_eq] at e2
                  obtain rfl := (cmpVal_eq_iff k k'').mp e2.1
                  obtain rfl := (cmpVal_eq_iff v v'').mp e2.2
                  exact Or.inr ⟨then_eq_eq.mpr ⟨cmpVal_refl k, cmpVal_refl v⟩,
                    cmpVPairs_lt_trans ps qs rs h1 h2⟩
end

/-! ## obj_cmp computes the canonical comparison -/

theorem ordToInt_swap (o : Ordering) : ordToInt o.swap = -ordToInt o := by
  cases o <;> rfl

theorem ordToInt_cases (o : Ordering) :
    ordToInt o = -1 ∨ ordToInt o = 0 ∨ ordToInt o = 1 := by
  cases o <;> simp [ordToInt]

/-- A matching registry entry has the ScVal type ordinal declared by the
handle's tag. -/
theorem objTagMatches_ord {tag : ObjTagM} {o : ResVal}
    (h : objTagMatches tag o = true) : objTagOrd tag = tagOrd o := by
  cases tag <;> cases o <;> first | rfl | (cases h; done)

/-- A small immediate resolves, and to a value of its declared ScVal
type ordinal. -/
theorem resolveSmall_ord {s : ValM} {rs : ResVal}
    (h : resolveSmall s = some rs) : scvalTypeOrd s = tagOrd rs := by
  cases s <;> first | (injection h with h'; rw [← h']; rfl) | (cases h; done)

theorem resolveSmall_total {s : ValM} (h : isObjVal s = false) :
    ∃ rs, resolveSmall s = some rs := by
  cases s <;> first | exact ⟨_, rfl⟩ | (cases h; done)

/-- `try_compare_to_small` only answers with the canonical comparison of
the object against the small value's denotation. -/
theorem tryCompareToSmall_sound {o : ResVal} {s : ValM} {r : Ordering}
    (h : tryCompareToSmall o s = some r) :
    ∃ rs, resolveSmall s = some rs ∧ r = cmpVal o rs := by
  cases o <;> cases s <;>
    first
    | (injection h with h'; exact ⟨_, rfl, h'.symm⟩)
    | (cases h; done)

/-- A matching registry entry is of an object kind. -/
theorem objTagMatches_kind {tag : ObjTagM} {o : ResVal}
    (h : objTagMatches tag o = true) : isObjKind o = true := by
  cases tag <;> cases o <;> first | rfl | (cases h; done)

/-- When `try_compare_to_small` declines on an object-kind value, the
two sides have different ScVal types, so the canonical comparison is the
type-ordinal comparison. -/
theorem tryCompareToSmall_none {o : ResVal} {s : ValM} {rs : ResVal}
    (hk : isObjKind o = true) (hnone : tryCompareToSmall o s = none)
    (hres : resolveSmall s = some rs) : tagOrd o ≠ tagOrd rs := by
  cases o <;> cases s <;>
    first
    | (cases hk; done)
    | ((injection hres with h'; rw [← h']; simp [tagOrd]) <;> done)
    | (cases hnone; done)
    | (cases hres; done)

theorem checkValIntegrity_obj (R : List ResVal) (tag : ObjTagM) (i : Nat) :
    checkValIntegrity R (.vmObj tag i) =
      (match lookupObj R i with
       | some o => objTagMatches tag o
       | none => false) := rfl

theorem resolveVal_small {v : ValM} (R : List ResVal) (h : isObjVal v = false) :
    resolveVal R v = resolveSmall v := by
  cases v <;> first | rfl | (cases h; done)

theorem integrity_obj_resolve (R : List ResVal) (v : ValM) (rv : ResVal)
    (hv : isObjVal v = true) (hi : checkValIntegrity R v = true)
    (hr : resolveVal R v = some rv) :
    ∃ tag i, v = .vmObj tag i ∧ lookupObj R i = some rv ∧
      objTagMatches tag rv = true := by
  cases v <;>
    first
    | (cases hv; done)
    | (replace hr : lookupObj R _ = some rv := hr
       rw [checkValIntegrity_obj, hr] at hi
       exact ⟨_, _, rfl, hr, hi⟩)

theorem objCmpDispatch_obj_obj (R : List ResVal) (ta tb : ObjTagM) (ia ib : Nat) :
    objCmpDispatch R (.vmObj ta ia) (.vmObj tb ib) =
      (match lookupObj R ia, lookupObj R ib with
       | some ao, some bo => .ok (some (cmpVal ao bo))
       | _, _ => .error errBadObjHandle) := rfl

theorem objCmpDispatch_obj_small (R : List ResVal) (ta : ObjTagM) (ia : Nat)
    (b : ValM) (hb : isObjVal b = false) :
    objCmpDispatch R (.vmObj ta ia) b =
      (match lookupObj R ia with
       | some ao => .ok (tryCompareToSmall ao b)
       | none => .error errBadObjHandle) := by
  cases b <;> first | rfl | (cases hb; done)

theorem objCmpDispatch_small_obj (R : List ResVal) (a : ValM)
    (ha : isObjVal a = false) (tb : ObjTagM) (ib : Nat) :
    objCmpDispatch R a (.vmObj tb ib) =
      (match lookupObj R ib with
       | some bo =>
           .ok
             (match tryCompareToSmall bo a with
              | some .lt => some .gt
              | some .gt => some .lt
              | other => other)
       | none => .error errBadObjHandle) := by
  cases a <;> first | rfl | (cases ha; done)

theorem scvalTypeOrd_objM (tag : ObjTagM) (i : Nat) :
    scvalTypeOrd (.vmObj tag i) = objTagOrd tag := rfl

/-- On arguments that pass the integrity check, at least one of which is
an object handle, `obj_cmp` returns exactly the canonical comparison of
the two resolved values, translated to `-1/0/1`. -/
theorem obj_cmp_spec (R : List ResVal) (a b : ValM) (ra rb : ResVal)
    (ha : checkValIntegrity R a = true) (hb : checkValIntegrity R b = true)
    (hobj : isObjVal a = true ∨ isObjVal b = true)
    (hra : resolveVal R a = some ra) (hrb : resolveVal R b = some rb) :
    obj_cmp R a b = .ok (ordToInt (cmpVal ra rb)) := by
  cases hA : isObjVal a with
  | true =>
      obtain ⟨ta, ia, rfl, hra', hm⟩ := integrity_obj_resolve R a ra hA ha hra
      cases hB : isObjVal b with
      | true =>
          obtain ⟨tb, ib, rfl, hrb', hm'⟩ := integrity_obj_resolve R b rb hB hb hrb
          simp [obj_cmp, ha, hb, objCmpDispatch_obj_obj, hra', hrb']
      | false =>
          rw [resolveVal_small R hB] at hrb
          have hk := objTagMatches_kind hm
          rcases htcs : tryCompareToSmall ra b with _ | r
          · have hne := tryCompareToSmall_none hk htcs hrb
            have hcv := cmpVal_tag_ne ra rb hne
            have eA : scvalTypeOrd (ValM.vmObj ta ia) = tagOrd ra :=
              objTagMatches_ord hm
            have eB := resolveSmall_ord hrb
            simp [obj_cmp, ha, hb, objCmpDispatch_obj_small R ta ia b hB, hra',
              htcs, eA, eB, hne, hcv]
          · obtain ⟨rs, hrs, hr⟩ := tryCompareToSmall_sound htcs
            rw [hrb] at hrs
            injection hrs with hrs
            subst hrs
            simp [obj_cmp, ha, hb, objCmpDispatch_obj_small R ta ia b hB, hra',
              htcs, hr]
  | false =>
      cases hB : isObjVal b with
      | false =>
          rcases hobj with h | h <;> simp [hA, hB] at h
      | true =>
          obtain ⟨tb, ib, rfl, hrb', hm⟩ := integrity_obj_resolve R b rb hB hb hrb
          rw [resolveVal_small R hA] at hra
          have hk := objTagMatches_kind hm
          rcases htcs : tryCompareToSmall rb a with _ | r
          · have hne := tryCompareToSmall_none hk htcs hra
            have hne2 : tagOrd ra ≠ tagOrd rb := fun h => hne h.symm
            have hcv := cmpVal_tag_ne ra rb hne2
            have eB : scvalTypeOrd (ValM.vmObj tb ib) = tagOrd rb :=
              objTagMatches_ord hm
            have eA := resolveSmall_ord hra
            simp [obj_cmp, ha, hb, objCmpDispatch_small_obj R a hA tb ib, hrb',
              htcs, eA, eB, hne2, hcv]
          · obtain ⟨rs, hrs, hr⟩ := tryCompareToSmall_sound htcs
            rw [hra] at hrs
            injection hrs with hrs
            subst hrs
            have hsw : cmpVal ra rb = (cmpVal rb ra).swap := cmpVal_swap rb ra
            cases r <;>
              simp [obj_cmp, ha, hb, objCmpDispatch_small_obj R a hA tb ib, hrb',
                htcs, hsw, ← hr, Ordering.swap, ordToInt]

/-! ## Claim C1: obj_cmp realizes a total order, returning -1/0/1 -/

/-- C1, counterexample to the claim as stated: `obj_cmp` does not return
one of `-1/0/1` for every pair of `Val`s — when both arguments are small
immediates (here both `void`), it fails with `Value/UnexpectedType`
("two non-object args to obj_cmp"). -/
theorem C1_counterexample_two_small_args :
    obj_cmp [] ValM.vmVoid ValM.vmVoid =
      .error ⟨ErrTypeM.Value, codeUnexpectedType⟩ := rfl

/-- C1 (amended): the canonical comparison computed by `obj_cmp` is a
total order on host values — equal values compare as `0` (and only
equal values), the comparison anti-commutes under swapping its
arguments, and strict comparison is transitive — and for every pair of
integrity-checked `Val`s of which at least one is an object handle,
`obj_cmp` returns exactly one of `-1`, `0`, `1`, namely the canonical
comparison of the two resolved values, with `obj_cmp(b,a)` its
negation.  (Two non-object arguments are instead rejected, per the
counterexample.) -/
theorem C1_obj_cmp_total_order :
    (∀ x y : ResVal, cmpVal x y = .eq ↔ x = y) ∧
    (∀ x y : ResVal, cmpVal y x = (cmpVal x y).swap) ∧
    (∀ x y z : ResVal, cmpVal x y = .lt → cmpVal y z = .lt → cmpVal x z = .lt) ∧
    (∀ (R : List ResVal) (a b : ValM) (ra rb : ResVal),
      checkValIntegrity R a = true → checkValIntegrity R b = true →
      (isObjVal a = true ∨ isObjVal b = true) →
      resolveVal R a = some ra → resolveVal R b = some rb →
      obj_cmp R a b = .ok (ordToInt (cmpVal ra rb)) ∧
      obj_cmp R b a = .ok (-(ordToInt (cmpVal ra rb))) ∧
      (ordToInt (cmpVal ra rb) = -1 ∨ ordToInt (cmpVal ra rb) = 0 ∨
        ordToInt (cmpVal ra rb) = 1) ∧
      (ra = rb → obj_cmp R a b = .ok 0)) := by
  refine ⟨cmpVal_eq_iff, cmpVal_swap, cmpVal_lt_trans, ?_⟩
  intro R a b ra rb ha hb hobj hra hrb
  have h1 := obj_cmp_spec R a b ra rb ha hb hobj hra hrb
  have h2 := obj_cmp_spec R b a rb ra hb ha hobj.symm hrb hra
  refine ⟨h1, ?_, ordToInt_cases _, ?_⟩
  · rw [h2, cmpVal_swap ra rb, ordToInt_swap]
  · intro he
    rw [he, cmpVal_refl] at h1
    simpa [ordToInt] using h1

/-- C1, witness: the amended theorem applied to the registry holding one
`U64(5)` object, compared against the small `U64(3)`. -/
theorem C1_obj_cmp_total_order_witness :
    obj_cmp [ResVal.vU64 5] (ValM.vmObj .tU64 0) (ValM.vmU64Small 3) = .ok 1 := by
  have h :=
    (C1_obj_cmp_total_order.2.2.2 [ResVal.vU64 5] (.vmObj .tU64 0)
      (.vmU64Small 3) (.vU64 5) (.vU64 3) rfl rfl (Or.inl rfl) rfl rfl).1
  rw [h]; rfl

/-! ## Claim C8: fail_with_error -/

/-- C8: `fail_with_error` never returns successfully; a `Contract`-typed
error fails with that very error (its code propagated), any other error
type is rejected with `Context/UnexpectedType`. -/
theorem C8_fail_with_error (e : ErrorM) :
    (∀ v, fail_with_error e ≠ .ok v) ∧
    (e.etype = ErrTypeM.Contract → fail_with_error e = .error e) ∧
    (e.etype ≠ ErrTypeM.Contract →
      fail_with_error e = .error ⟨ErrTypeM.Context, codeUnexpectedType⟩) := by
  unfold fail_with_error
  by_cases h : e.etype = ErrTypeM.Contract <;> simp [h]

/-- C8, witness: the theorem applied to the contract error of code 42
and to the non-contract error `Storage/MissingValue`. -/
theorem C8_fail_with_error_witness :
    fail_with_error ⟨ErrTypeM.Contract, 42⟩ =
      .error ⟨ErrTypeM.Contract, 42⟩ ∧
    fail_with_error ⟨ErrTypeM.Storage, codeMissingValue⟩ =
      .error ⟨ErrTypeM.Context, codeUnexpectedType⟩ :=
  ⟨(C8_fail_with_error ⟨.Contract, 42⟩).2.1 rfl,
   (C8_fail_with_error ⟨.Storage, codeMissingValue⟩).2.2 (by decide)⟩

/-! ## Claim C2: try_call error mapping -/

/-- C2: when the callee of `try_call` fails with error `e`: if `e` is
recoverable and `Contract`-typed, `try_call` returns `Ok` with exactly
that error as a `Val`; if `e` is recoverable but not `Contract`-typed,
`try_call` returns `Ok` with the single error value
`Context/InvalidAction`; if `e` is non-recoverable, `try_call`
propagates it as `Err`. -/
theorem C2_try_call_error_mapping (e : ErrorM) :
    (isRecoverable e = true → e.etype = ErrTypeM.Contract →
      try_call (.error e) = .ok (errorToVal e)) ∧
    (isRecoverable e = true → e.etype ≠ ErrTypeM.Contract →
      try_call (.error e) =
        .ok (errorToVal ⟨ErrTypeM.Context, codeInvalidAction⟩)) ∧
    (isRecoverable e = false → try_call (.error e) = .error e) := by
  refine ⟨fun h1 h2 => ?_, fun h1 h2 => ?_, fun h1 => ?_⟩ <;>
    simp [try_call, h1, *]

/-- C2, witness: the theorem applied to the callee failing with
`Contract/42` (passed through verbatim), with `Storage/MissingValue`
(masked to `Context/InvalidAction`), and with the non-recoverable
`Budget/ExceededLimit` (propagated as `Err`). -/
theorem C2_try_call_error_mapping_witness :
    try_call (.error ⟨ErrTypeM.Contract, 42⟩) =
      .ok (errorToVal ⟨ErrTypeM.Contract, 42⟩) ∧
    try_call (.error ⟨ErrTypeM.Storage, codeMissingValue⟩) =
      .ok (errorToVal ⟨ErrTypeM.Context, codeInvalidAction⟩) ∧
    try_call (.error ⟨ErrTypeM.Budget, codeExceededLimit⟩) =
      .error ⟨ErrTypeM.Budget, codeExceededLimit⟩ :=
  ⟨(C2_try_call_error_mapping ⟨.Contract, 42⟩).1 rfl rfl,
   (C2_try_call_error_mapping ⟨.Storage, codeMissingValue⟩).2.1 rfl (by decide),
   (C2_try_call_error_mapping ⟨.Budget, codeExceededLimit⟩).2.2 rfl⟩

/-! ## Claim C7: the generic bump rejects Instance storage -/

/-- C7: for every key and watermarks, `bump_contract_data` called with
storage type `Instance` fails with `Storage/InvalidAction` — before any
access to the storage, so no entry is bumped; Instance storage is bumped
only through the instance-and-code bump functions. -/
theorem C7_bump_instance_rejected (R : List ResVal) (s : StorageM) (k : ValM)
    (lo hi : Nat) (hk : checkValIntegrity R k = true) :
    bump_contract_data R s k .Instance lo hi =
      .error ⟨ErrTypeM.Storage, codeInvalidAction⟩ := by
  simp [bump_contract_data, checkIntegrityE, hk, Bind.bind, Except.bind]

/-- C7, witness: the theorem applied to a singleton storage and a void
key. -/
theorem C7_bump_instance_rejected_witness :
    bump_contract_data [] [((StorageTypeM.Persistent, ResVal.vVoid),
        ⟨ResVal.vU32 7, 100⟩)] ValM.vmVoid .Instance 0 0 =
      .error ⟨ErrTypeM.Storage, codeInvalidAction⟩ :=
  C7_bump_instance_rejected [] [((StorageTypeM.Persistent, ResVal.vVoid),
    ⟨ResVal.vU32 7, 100⟩)] ValM.vmVoid 0 0 rfl

/-! ## Claim C3: map_put / map_get / map_has / map_len -/

theorem mapHasKey_insert : (ps : ResPairs) → (k v : ResVal) →
    mapHasKey (mapInsert ps k v) k = true
| .nil, k, v => by simp [mapInsert, mapHasKey, cmpVal_refl]
| .cons k' v' rest, k, v => by
    rcases h : cmpVal k k' with _ | _ | _ <;>
      simp [mapInsert, h, mapHasKey, cmpVal_refl, mapHasKey_insert rest k v]

theorem mapGet_insert : (ps : ResPairs) → (k v : ResVal) →
    mapGet (mapInsert ps k v) k = some v
| .nil, k, v => by simp [mapInsert, mapGet, cmpVal_refl]
| .cons k' v' rest, k, v => by
    rcases h : cmpVal k k' with _ | _ | _ <;>
      simp [mapInsert, h, mapGet, cmpVal_refl, mapGet_insert rest k v]

theorem mapLen_insert : (ps : ResPairs) → (k v : ResVal) →
    mapLen (mapInsert ps k v) =
      mapLen ps + (if mapHasKey ps k then 0 else 1)
| .nil, k, v => by simp [mapInsert, mapHasKey, mapLen]
| .cons k' v' rest, k, v => by
    rcases h : cmpVal k k' with _ | _ | _ <;>
      simp [mapInsert, h, mapHasKey, mapLen, mapLen_insert rest k v] <;>
      cases hb : mapHasKey rest k <;> simp [hb] <;> omega

/-- C3: after `map_put(m,k,v)` the new map has `k`, `map_get` on it
returns `v`, and its `map_len` is the old length plus one exactly when
`k` was absent (unchanged otherwise).  The hypothesis bounds the new
length by `u32::MAX`, as `map_len` reports lengths as `U32Val`s. -/
theorem C3_map_put_get_has_len (R : List ResVal) (m : Nat) (ps : ResPairs)
    (k v : ResVal) (hm : lookupObj R m = some (.vMap ps))
    (hlen : mapLen ps + 1 < 2 ^ 32) :
    map_put R m k v = .ok (R ++ [.vMap (mapInsert ps k v)], R.length) ∧
    map_has (R ++ [.vMap (mapInsert ps k v)]) R.length k = .ok true ∧
    map_get (R ++ [.vMap (mapInsert ps k v)]) R.length k = .ok v ∧
    map_len (R ++ [.vMap (mapInsert ps k v)]) R.length =
      .ok (mapLen ps + (if mapHasKey ps k then 0 else 1)) ∧
    map_len R m = .ok (mapLen ps) ∧
    map_has R m k = .ok (mapHasKey ps k) := by
  have hm' : lookupObj (R ++ [ResVal.vMap (mapInsert ps k v)]) R.length =
      some (.vMap (mapInsert ps k v)) := List.getElem?_concat_length R _
  refine ⟨?_, ?_, ?_, ?_, ?_, ?_⟩
  · simp [map_put, visitMap, hm, addHostObject, Bind.bind, Except.bind]
  · simp [map_has, visitMap, hm', Bind.bind, Except.bind, mapHasKey_insert]
  · simp [map_get, visitMap, hm', Bind.bind, Except.bind, mapGet_insert]
  · cases hhas : mapHasKey ps k <;>
      simp [map_len, visitMap, hm', Bind.bind, Except.bind, usize_to_u32val,
        mapLen_insert, hhas] <;>
      omega
  · simp [map_len, visitMap, hm, Bind.bind, Except.bind, usize_to_u32val]
    omega
  · simp [map_has, visitMap, hm, Bind.bind, Except.bind]

/-- C3, witness: the theorem applied to the registry holding one empty
map, inserting key `U32(1)` with value `U32(2)`. -/
theorem C3_map_put_get_has_len_witness :
    map_put [ResVal.vMap .nil] 0 (ResVal.vU32 1) (ResVal.vU32 2) =
      .ok ([ResVal.vMap .nil,
            ResVal.vMap (.cons (.vU32 1) (.vU32 2) .nil)], 1) ∧
    map_has [ResVal.vMap .nil,
      ResVal.vMap (.cons (.vU32 1) (.vU32 2) .nil)] 1 (ResVal.vU32 1) =
      .ok true ∧
    map_get [ResVal.vMap .nil,
      ResVal.vMap (.cons (.vU32 1) (.vU32 2) .nil)] 1 (ResVal.vU32 1) =
      .ok (ResVal.vU32 2) ∧
    map_len [ResVal.vMap .nil,
      ResVal.vMap (.cons (.vU32 1) (.vU32 2) .nil)] 1 = .ok 1 := by
  have h := C3_map_put_get_has_len [ResVal.vMap .nil] 0 .nil
    (ResVal.vU32 1) (ResVal.vU32 2) rfl (by norm_num [mapLen])
  exact ⟨h.1, h.2.1, h.2.2.1, h.2.2.2.1⟩

/-! ## Claim C4: vec_push_back / vec_pop_back / vec_len -/

theorem vlistLen_push : (xs : ResList) → (x : ResVal) →
    vlistLen (vlistPushBack xs x) = vlistLen xs + 1
| .nil, x => rfl
| .cons y ys, x => by
    simp [vlistPushBack, vlistLen, vlistLen_push ys x]

theorem vlistPop_push : (xs : ResList) → (x : ResVal) →
    vlistPopBack (vlistPushBack xs x) = some xs
| .nil, x => rfl
| .cons y .nil, x => rfl
| .cons y (.cons z zs), x => by
    have ih := vlistPop_push (ResList.cons z zs) x
    simp only [vlistPushBack] at ih
    show (match vlistPopBack (ResList.cons z (vlistPushBack zs x)) with
          | some ys => some (ResList.cons y ys)
          | none => none) =
        some (ResList.cons y (ResList.cons z zs))
    rw [ih]

/-- C4: `vec_push_back` appends the element, `vec_len` of the result is
the old length plus one, and `vec_pop_back` of the result yields a
vector whose elements are exactly those of the original vector.  The
hypothesis bounds the new length by `u32::MAX`, as `vec_len` reports
lengths as `U32Val`s. -/
theorem C4_vec_push_pop_len (R : List ResVal) (v : Nat) (xs : ResList)
    (x : ResVal) (hv : lookupObj R v = some (.vVec xs))
    (hlen : vlistLen xs + 1 < 2 ^ 32) :
    vec_push_back R v x = .ok (R ++ [.vVec (vlistPushBack xs x)], R.length) ∧
    vec_len (R ++ [.vVec (vlistPushBack xs x)]) R.length =
      .ok (vlistLen xs + 1) ∧
    vec_len R v = .ok (vlistLen xs) ∧
    vec_pop_back (R ++ [.vVec (vlistPushBack xs x)]) R.length =
      .ok ((R ++ [ResVal.vVec (vlistPushBack xs x)]) ++ [ResVal.vVec xs],
        (R ++ [ResVal.vVec (vlistPushBack xs x)]).length) := by
  have hv' : lookupObj (R ++ [ResVal.vVec (vlistPushBack xs x)]) R.length =
      some (.vVec (vlistPushBack xs x)) := List.getElem?_concat_length R _
  refine ⟨?_, ?_, ?_, ?_⟩
  · simp [vec_push_back, visitVec, hv, addHostObject, Bind.bind, Except.bind]
  · simp [vec_len, visitVec, hv', Bind.bind, Except.bind, usize_to_u32val,
      vlistLen_push]
    omega
  · simp [vec_len, visitVec, hv, Bind.bind, Except.bind, usize_to_u32val]
    omega
  · simp [vec_pop_back, visitVec, hv', Bind.bind, Except.bind, vlistPop_push,
      addHostObject]

/-- C4, witness: the theorem applied to the registry holding the
one-element vector `[U32(7)]`, pushing `U32(9)`. -/
theorem C4_vec_push_pop_len_witness :
    vec_push_back [ResVal.vVec (.cons (.vU32 7) .nil)] 0 (ResVal.vU32 9) =
      .ok ([ResVal.vVec (.cons (.vU32 7) .nil),
            ResVal.vVec (.cons (.vU32 7) (.cons (.vU32 9) .nil))], 1) ∧
    vec_len [ResVal.vVec (.cons (.vU32 7) .nil),
      ResVal.vVec (.cons (.vU32 7) (.cons (.vU32 9) .nil))] 1 = .ok 2 ∧
    vec_pop_back [ResVal.vVec (.cons (.vU32 7) .nil),
      ResVal.vVec (.cons (.vU32 7) (.cons (.vU32 9) .nil))] 1 =
      .ok ([ResVal.vVec (.cons (.vU32 7) .nil),
            ResVal.vVec (.cons (.vU32 7) (.cons (.vU32 9) .nil)),
            ResVal.vVec (.cons (.vU32 7) .nil)], 2) := by
  have h := C4_vec_push_pop_len [ResVal.vVec (.cons (.vU32 7) .nil)] 0
    (.cons (.vU32 7) .nil) (ResVal.vU32 9) rfl (by norm_num [vlistLen])
  exact ⟨h.1, h.2.1, h.2.2.2⟩

/-! ## Claim C9: negative amounts are rejected first by the token
contract -/

/-- C9: every amount-taking function of the built-in token contract
(`approve`, `transfer`, `transfer_from`, `burn`, `burn_from`, `mint`,
`clawback`) rejects a negative amount with the `NegativeAmountError`
contract error; the check runs before any authorization check or state
change, so the returned error carries no updated state — balances,
allowances and the event buffer are untouched. -/
theorem C9_token_negative_amount_rejected (st : TokenStateM)
    (a1 a2 a3 : Nat) (amount : Int) (exp : Nat) (h : amount < 0) :
    Token.approve st a1 a2 amount exp =
      .error (contractErr .NegativeAmountError) ∧
    Token.transfer st a1 a2 amount =
      .error (contractErr .NegativeAmountError) ∧
    Token.transfer_from st a1 a2 a3 amount =
      .error (contractErr .NegativeAmountError) ∧
    Token.burn st a1 amount = .error (contractErr .NegativeAmountError) ∧
    Token.burn_from st a1 a2 amount =
      .error (contractErr .NegativeAmountError) ∧
    Token.mint st a1 amount = .error (contractErr .NegativeAmountError) ∧
    Token.clawback st a1 amount =
      .error (contractErr .NegativeAmountError) := by
  refine ⟨?_, ?_, ?_, ?_, ?_, ?_, ?_⟩ <;>
    simp [Token.approve, Token.transfer, Token.transfer_from, Token.burn,
      Token.burn_from, Token.mint, Token.clawback, check_nonnegative_amount,
      h, Bind.bind, Except.bind]

/-- C9, witness: the theorem applied to an empty token state and the
amount `-1`. -/
theorem C9_token_negative_amount_rejected_witness :
    Token.transfer ⟨[], [], [], [], [], .Native, none, 0⟩ 1 2 (-1) =
      .error (contractErr .NegativeAmountError) ∧
    Token.mint ⟨[], [], [], [], [], .Native, none, 0⟩ 1 (-1) =
      .error (contractErr .NegativeAmountError) := by
  have h := C9_token_negative_amount_rejected
    ⟨[], [], [], [], [], .Native, none, 0⟩ 1 2 3 (-1) 0 (by norm_num)
  exact ⟨h.2.1, h.2.2.2.2.2.1⟩

/-! ## Claim C10: burn and burn_from are unsupported on the Native
asset -/

/-- C10: on a token contract wrapping the Native asset, `burn` and
`burn_from` fail with the `OperationNotSupportedError` contract error
for every caller and every nonnegative amount; the check runs before
any authorization, balance or allowance access and before any event is
emitted, so the returned error carries no updated state. -/
theorem C10_token_burn_native_unsupported (st : TokenStateM)
    (spender src : Nat) (amount : Int) (hN : st.assetInfo = .Native)
    (h : 0 ≤ amount) :
    Token.burn st src amount =
      .error (contractErr .OperationNotSupportedError) ∧
    Token.burn_from st spender src amount =
      .error (contractErr .OperationNotSupportedError) := by
  have h' : ¬(amount < 0) := by omega
  refine ⟨?_, ?_⟩ <;>
    simp [Token.burn, Token.burn_from, check_nonnegative_amount,
      check_non_native, readAssetInfo, hN, h', Bind.bind, Except.bind]

/-- C10, witness: the theorem applied to a Native-asset token state
holding a balance, burning 5 of it. -/
theorem C10_token_burn_native_unsupported_witness :
    Token.burn ⟨[(1, 10)], [], [], [1], [], .Native, none, 0⟩ 1 5 =
      .error (contractErr .OperationNotSupportedError) :=
  (C10_token_burn_native_unsupported
    ⟨[(1, 10)], [], [], [1], [], .Native, none, 0⟩ 2 1 5 rfl
    (by norm_num)).1

theorem encLen_pos (v : ResVal) : 1 ≤ (encVal v).length := by
  cases v <;> simp [encVal]

theorem msize_vBool (b : Bool) : msize (.vBool b) = 1 := rfl
theorem msize_vVoid : msize .vVoid = 1 := rfl
theorem msize_vError (t c : Nat) : msize (.vError t c) = 1 := rfl
theorem msize_vU32 (n : Nat) : msize (.vU32 n) = 1 := rfl
theorem msize_vI32 (i : Int) : msize (.vI32 i) = 1 := rfl
theorem msize_vU64 (n : Nat) : msize (.vU64 n) = 1 := rfl
theorem msize_vI64 (i : Int) : msize (.vI64 i) = 1 := rfl
theorem msize_vBytes (s : List Nat) : msize (.vBytes s) = 1 := rfl
theorem msize_vSym (s : List Nat) : msize (.vSym s) = 1 := rfl
theorem msize_vVec (xs : ResList) : msize (.vVec xs) = msizeL xs + 1 := rfl
theorem msize_vMap (ps : ResPairs) : msize (.vMap ps) = msizeP ps + 1 := rfl

theorem msizeL_cons (x : ResVal) (xs : ResList) :
    msizeL (.cons x xs) = max (msize x) (msizeL xs) + 1 := rfl

theorem msizeP_cons (k v : ResVal) (ps : ResPairs) :
    msizeP (.cons k v ps) = max (msize k) (max (msize v) (msizeP ps)) + 1 := rfl

mutual
theorem msize_le_enc : (v : ResVal) → msize v ≤ (encVal v).length
| .vBool b => by rw [msize_vBool]; simp [encVal]
| .vVoid => by rw [msize_vVoid]; simp [encVal]
| .vError t c => by rw [msize_vError]; simp [encVal]
| .vU32 n => by rw [msize_vU32]; simp [encVal]
| .vI32 i => by rw [msize_vI32]; simp [encVal]
| .vU64 n => by rw [msize_vU64]; simp [encVal]
| .vI64 i => by rw [msize_vI64]; simp [encVal]
| .vBytes s => by rw [msize_vBytes]; simp [encVal]
| .vSym s => by rw [msize_vSym]; simp [encVal]
| .vVec xs => by
    rw [msize_vVec, show encVal (.vVec xs) = 9 :: vlistLen xs :: encVList xs
      from rfl]
    have := msizeL_le_enc xs
    simp only [List.length_cons]
    omega
| .vMap ps => by
    rw [msize_vMap, show encVal (.vMap ps) = 10 :: mapLen ps :: encVPairs ps
      from rfl]
    have := msizeP_le_enc ps
    simp only [List.length_cons]
    omega

theorem msizeL_le_enc : (xs : ResList) → msizeL xs ≤ (encVList xs).length + 1
| .nil => by rw [show msizeL .nil = 0 from rfl]; omega
| .cons x xs => by
    rw [msizeL_cons, show encVList (.cons x xs) = encVal x ++ encVList xs
      from rfl]
    have h1 := msize_le_enc x
    have h2 := msizeL_le_enc xs
    have h3 := encLen_pos x
    simp only [List.length_append]
    omega

theorem msizeP_le_enc : (ps : ResPairs) → msizeP ps ≤ (encVPairs ps).length + 1
| .nil => by rw [show msizeP .nil = 0 from rfl]; omega
| .cons k v ps => by
    rw [msizeP_cons, show encVPairs (.cons k v ps) =
      encVal k ++ (encVal v ++ encVPairs ps) from rfl]
    have h1 := msize_le_enc k
    have h2 := msize_le_enc v
    have h3 := msizeP_le_enc ps
    have h4 := encLen_pos k
    have h5 := encLen_pos v
    simp only [List.length_append]
    omega
end

mutual
/-- Decoding a canonical encoding recovers the value, given decoder fuel
of at least the value's nesting measure. -/
theorem decVal_enc : (v : ResVal) → ∀ (f : Nat) (rest : List Nat),
    msize v ≤ f → decVal f (encVal v ++ rest) = some (v, rest)
| .vBool b => fun f rest h => by
    cases f with
    | zero => rw [msize_vBool] at h; exact absurd h (by decide)
    | succ f' => cases b <;> rfl
| .vVoid => fun f rest h => by
    cases f with
    | zero => rw [msize_vVoid] at h; exact absurd h (by decide)
    | succ f' => rfl
| .vError t c => fun f rest h => by
    cases f with
    | zero => rw [msize_vError] at h; exact absurd h (by decide)
    | succ f' => rfl
| .vU32 n => fun f rest h => by
    cases f with
    | zero => rw [msize_vU32] at h; exact absurd h (by decide)
    | succ f' => rfl
| .vI32 i => fun f rest h => by
    cases f with
    | zero => rw [msize_vI32] at h; exact absurd h (by decide)
    | succ f' =>
        rcases lt_or_ge i 0 with hi | hi
        · rw [show encVal (.vI32 i) ++ rest =
            4 :: (cond (i < 0 : Bool) 1 0) :: i.natAbs :: rest from rfl,
            show (cond (i < 0 : Bool) 1 0 : Nat) = 1 from by simp [hi]]
          show some (ResVal.vI32 (-(i.natAbs : Int)), rest) =
            some (ResVal.vI32 i, rest)
          rw [show -(i.natAbs : Int) = i from by omega]
        · rw [show encVal (.vI32 i) ++ rest =
            4 :: (cond (i < 0 : Bool) 1 0) :: i.natAbs :: rest from rfl,
            show (cond (i < 0 : Bool) 1 0 : Nat) = 0 from by
              simp [Int.not_lt.mpr hi]]
          show some (ResVal.vI32 ((i.natAbs : Int)), rest) =
            some (ResVal.vI32 i, rest)
          rw [show (i.natAbs : Int) = i from by omega]
| .vU64 n => fun f rest h => by
    cases f with
    | zero => rw [msize_vU64] at h; exact absurd h (by decide)
    | succ f' => rfl
| .vI64 i => fun f rest h => by
    cases f with
    | zero => rw [msize_vI64] at h; exact absurd h (by decide)
    | succ f' =>
        rcases lt_or_ge i 0 with hi | hi
        · rw [show encVal (.vI64 i) ++ rest =
            6 :: (cond (i < 0 : Bool) 1 0) :: i.natAbs :: rest from rfl,
            show (cond (i < 0 : Bool) 1 0 : Nat) = 1 from by simp [hi]]
          show some (ResVal.vI64 (-(i.natAbs : Int)), rest) =
            some (ResVal.vI64 i, rest)
          rw [show -(i.natAbs : Int) = i from by omega]
        · rw [show encVal (.vI64 i) ++ rest =
            6 :: (cond (i < 0 : Bool) 1 0) :: i.natAbs :: rest from rfl,
            show (cond (i < 0 : Bool) 1 0 : Nat) = 0 from by
              simp [Int.not_lt.mpr hi]]
          show some (ResVal.vI64 ((i.natAbs : Int)), rest) =
            some (ResVal.vI64 i, rest)
          rw [show (i.natAbs : Int) = i from by omega]
| .vBytes s => fun f rest h => by
    cases f with
    | zero => rw [msize_vBytes] at h; exact absurd h (by decide)
    | succ f' =>
        show (if s.length ≤ (s ++ rest).length
              then some (ResVal.vBytes ((s ++ rest).take s.length),
                (s ++ rest).drop s.length)
              else none) = some (.vBytes s, rest)
        rw [if_pos (by simp)]
        simp
| .vSym s => fun f rest h => by
    cases f with
    | zero => rw [msize_vSym] at h; exact absurd h (by decide)
    | succ f' =>
        show (if s.length ≤ (s ++ rest).length
              then some (ResVal.vSym ((s ++ rest).take s.length),
                (s ++ rest).drop s.length)
              else none) = some (.vSym s, rest)
        rw [if_pos (by simp)]
        simp
| .vVec xs => fun f rest h => by
    cases f with
    | zero => rw [msize_vVec] at h; exact absurd h (by omega)
    | succ f' =>
        have hl : msizeL xs ≤ f' := by rw [msize_vVec] at h; omega
        show (match decVList f' (vlistLen xs) (encVList xs ++ rest) with
              | some (ys, r) => some (ResVal.vVec ys, r)
              | none => none) = some (ResVal.vVec xs, rest)
        rw [decVList_enc xs f' rest hl]
| .vMap ps => fun f rest h => by
    cases f with
    | zero => rw [msize_vMap] at h; exact absurd h (by omega)
    | succ f' =>
        have hl : msizeP ps ≤ f' := by rw [msize_vMap] at h; omega
        show (match decVPairs f' (mapLen ps) (encVPairs ps ++ rest) with
              | some (qs, r) => some (ResVal.vMap qs, r)
              | none => none) = some (ResVal.vMap ps, rest)
        rw [decVPairs_enc ps f' rest hl]

theorem decVList_enc : (xs : ResList) → ∀ (f : Nat) (rest : List Nat),
    msizeL xs ≤ f →
    decVList f (vlistLen xs) (encVList xs ++ rest) = some (xs, rest)
| .nil => fun f rest h => by cases f <;> rfl
| .cons x xs => fun f rest h => by
    cases f with
    | zero => rw [msizeL_cons] at h; exact absurd h (by omega)
    | succ f' =>
        have h1 : msize x ≤ f' := by rw [msizeL_cons] at h; omega
        have h2 : msizeL xs ≤ f' := by rw [msizeL_cons] at h; omega
        rw [show encVList (ResList.cons x xs) ++ rest =
          encVal x ++ (encVList xs ++ rest) from by
            rw [show encVList (ResList.cons x xs) = encVal x ++ encVList xs
              from rfl, List.append_assoc]]
        show (match decVal f' (encVal x ++ (encVList xs ++ rest)) with
              | some (y, r1) =>
                  (match decVList f' (vlistLen xs) r1 with
                   | some (ys, r2) => some (ResList.cons y ys, r2)
                   | none => none)
              | none => none) = some (ResList.cons x xs, rest)
        rw [decVal_enc x f' (encVList xs ++ rest) h1]
        show (match decVList f' (vlistLen xs) (encVList xs ++ rest) with
              | some (ys, r2) => some (ResList.cons x ys, r2)
              | none => none) = some (ResList.cons x xs, rest)
        rw [decVList_enc xs f' rest h2]

theorem decVPairs_enc : (ps : ResPairs) → ∀ (f : Nat) (rest : List Nat),
    msizeP ps ≤ f →
    decVPairs f (mapLen ps) (encVPairs ps ++ rest) = some (ps, rest)
| .nil => fun f rest h => by cases f <;> rfl
| .cons k v ps => fun f rest h => by
    cases f with
    | zero => rw [msizeP_cons] at h; exact absurd h (by omega)
    | succ f' =>
        have h1 : msize k ≤ f' := by rw [msizeP_cons] at h; omega
        have h2 : msize v ≤ f' := by rw [msizeP_cons] at h; omega
        have h3 : msizeP ps ≤ f' := by rw [msizeP_cons] at h; omega
        rw [show encVPairs (ResPairs.cons k v ps) ++ rest =
          encVal k ++ (encVal v ++ (encVPairs ps ++ rest)) from by
            rw [show encVPairs (ResPairs.cons k v ps) =
              encVal k ++ (encVal v ++ encVPairs ps) from rfl]
            simp [List.append_assoc]]
        show (match decVal f' (encVal k ++ (encVal v ++ (encVPairs ps ++ rest)))
              with
              | some (k', r1) =>
                  (match decVal f' r1 with
                   | some (v', r2) =>
                       (match decVPairs f' (mapLen ps) r2 with
                        | some (qs, r3) => some (ResPairs.cons k' v' qs, r3)
                        | none => none)
                   | none => none)
              | none => none) = some (ResPairs.cons k v ps, rest)
        rw [decVal_enc k f' (encVal v ++ (encVPairs ps ++ rest)) h1]
        show (match decVal f' (encVal v ++ (encVPairs ps ++ rest)) with
              | some (v', r2) =>
                  (match decVPairs f' (mapLen ps) r2 with
                   | some (qs, r3) => some (ResPairs.cons k v' qs, r3)
                   | none => none)
              | none => none) = some (ResPairs.cons k v ps, rest)
        rw [decVal_enc v f' (encVPairs ps ++ rest) h2]
        show (match decVPairs f' (mapLen ps) (encVPairs ps ++ rest) with
              | some (qs, r3) => some (ResPairs.cons k v qs, r3)
              | none => none) = some (ResPairs.cons k v ps, rest)
        rw [decVPairs_enc ps f' rest h3]
end

/-- C5: serialization round-trip — deserializing the canonical encoding
of any host value yields that value back. -/
theorem C5_serialize_roundtrip (v : ResVal) :
    deserialize_from_bytes (serialize_to_bytes v) = .ok v := by
  unfold deserialize_from_bytes serialize_to_bytes
  have hf : msize v ≤ (encVal v).length + 1 :=
    Nat.le_trans (msize_le_enc v) (Nat.le_succ _)
  have h := decVal_enc v ((encVal v).length + 1) [] hf
  rw [List.append_nil] at h
  rw [h]

theorem vecSearch_le_len : (xs : ResList) → (x : ResVal) →
    (vecSearch xs x).2 ≤ vlistLen xs
| .nil, x => by simp [vecSearch, vlistLen]
| .cons y ys, x => by
    rcases c : cmpVal y x with _ | _ | _ <;>
      simp [vecSearch, c, vlistLen, vecSearch_le_len ys x]

theorem vecSearch_hit : (xs : ResList) → (x : ResVal) →
    (vecSearch xs x).1 = true → vlistGet xs (vecSearch xs x).2 = some x
| .nil, x => by simp [vecSearch]
| .cons y ys, x => by
    rcases c : cmpVal y x with _ | _ | _ <;>
      intro hfound <;> simp [vecSearch, c] at hfound ⊢
    · exact vecSearch_hit ys x hfound
    · exact ((cmpVal_eq_iff y x).mp c).symm ▸ rfl

theorem vecSearch_miss_insert_sorted : (xs : ResList) → (x : ResVal) →
    sortedVList xs = true → (vecSearch xs x).1 = false →
    sortedVList (vlistInsertAt xs (vecSearch xs x).2 x) = true
| .nil, x, _, _ => rfl
| .cons y ys, x, hsort, hmiss => by
    rcases c : cmpVal y x with _ | _ | _
    · -- head below the probe: the insertion point is in the tail
      rw [show (vecSearch (ResList.cons y ys) x).2 = (vecSearch ys x).2 + 1 from by
        simp [vecSearch, c]]
      show sortedVList (.cons y (vlistInsertAt ys (vecSearch ys x).2 x)) = true
      have hmiss' : (vecSearch ys x).1 = false := by
        simpa [vecSearch, c] using hmiss
      cases ys with
      | nil =>
          show sortedVList (.cons y (.cons x .nil)) = true
          simp [sortedVList, c, Ordering.isLE]
      | cons z zs =>
          have hyz : (cmpVal y z).isLE = true := by
            simp [sortedVList] at hsort
            exact hsort.1
          have hs' : sortedVList (.cons z zs) = true := by
            simp [sortedVList] at hsort
            simp [sortedVList, hsort.2]
          have ih := vecSearch_miss_insert_sorted (ResList.cons z zs) x hs' hmiss'
          rcases c' : cmpVal z x with _ | _ | _
          · rw [show (vecSearch (ResList.cons z zs) x).2 = (vecSearch zs x).2 + 1 from by
              simp [vecSearch, c']] at ih
            rw [show (vecSearch (ResList.cons z zs) x).2 = (vecSearch zs x).2 + 1 from by
              simp [vecSearch, c']]
            show sortedVList (.cons y (.cons z (vlistInsertAt zs
              (vecSearch zs x).2 x))) = true
            have ihz : sortedVList (.cons z (vlistInsertAt zs
                (vecSearch zs x).2 x)) = true := ih
            simp [sortedVList]
            exact ⟨hyz, ihz⟩
          · exfalso
            simp [vecSearch, c'] at hmiss'
          · rw [show (vecSearch (ResList.cons z zs) x).2 = 0 from by
              simp [vecSearch, c']] at ih
            rw [show (vecSearch (ResList.cons z zs) x).2 = 0 from by
              simp [vecSearch, c']]
            show sortedVList (.cons y (.cons x (.cons z zs))) = true
            have ihx : sortedVList (.cons x (.cons z zs)) = true := ih
            simp [sortedVList] at ihx
            simp [sortedVList, c, Ordering.isLE]
            exact ihx
    · exfalso
      simp [vecSearch, c] at hmiss
    · -- head above the probe: insert in front
      rw [show (vecSearch (ResList.cons y ys) x).2 = 0 from by simp [vecSearch, c]]
      show sortedVList (.cons x (.cons y ys)) = true
      have hxy : cmpVal x y = .lt := by
        have hs : (cmpVal x y).swap = .gt := by
          rw [show (cmpVal x y).swap = cmpVal y x from (cmpVal_swap x y).symm]
          exact c
        cases hc : cmpVal x y <;> rw [hc] at hs <;>
          first | exact hc | exact absurd hs (by decide)
      cases ys with
      | nil => simp [sortedVList, hxy, Ordering.isLE]
      | cons z zs =>
          simp [sortedVList, hxy, Ordering.isLE]
          simpa [sortedVList] using hsort

/-- **C6.** `vec_binary_search` on a vector sorted under the host
comparison returns the 64-bit encoding `(found bit) * 2^63 + index`: bit 63 of the result is set iff the probe was found, the low 32
bits carry the index; on a hit the vector holds the probe at that index,
and on a miss inserting the probe at that index keeps the vector
sorted. -/
theorem C6_vec_binary_search (R : List ResVal) (v : Nat) (xs : ResList)
    (x : ResVal)
    (hv : lookupObj R v = some (.vVec xs))
    (hsort : sortedVList xs = true)
    (hlen : vlistLen xs < 2 ^ 32) :
    vec_binary_search R v x =
      .ok ((if (vecSearch xs x).1 then 2 ^ 63 else 0) + (vecSearch xs x).2) ∧
    ((if (vecSearch xs x).1 then 2 ^ 63 else 0) + (vecSearch xs x).2).testBit 63
        = (vecSearch xs x).1 ∧
    ((if (vecSearch xs x).1 then 2 ^ 63 else 0) + (vecSearch xs x).2) % 2 ^ 32
        = (vecSearch xs x).2 ∧
    ((vecSearch xs x).1 = true → vlistGet xs (vecSearch xs x).2 = some x) ∧
    ((vecSearch xs x).1 = false →
      sortedVList (vlistInsertAt xs (vecSearch xs x).2 x) = true) := by
  have hIdx : (vecSearch xs x).2 < 2 ^ 32 :=
    lt_of_le_of_lt (vecSearch_le_len xs x) hlen
  refine ⟨?_, ?_, ?_, vecSearch_hit xs x, vecSearch_miss_insert_sorted xs x hsort⟩
  · simp [vec_binary_search, visitVec, hv, Bind.bind, Except.bind,
      u64_from_binary_search_result, usize_to_u32val]
    rw [if_pos (by omega : (vecSearch xs x).2 < 4294967296)]
  · cases hf : (vecSearch xs x).1 <;> simp
    · rw [Nat.testBit_to_div_mod]
      simp only [decide_eq_false_iff_not]
      omega
    · rw [Nat.testBit_to_div_mod]
      simp only [decide_eq_true_eq]
      omega
  · cases hf : (vecSearch xs x).1 <;> simp <;> omega

/-- Witness for C6: searching for `U32(2)` in the sorted vector
`[U32(1), U32(3)]` misses at insertion index 1, and inserting there keeps
the vector sorted. -/
theorem C6_vec_binary_search_witness :
    vec_binary_search [ResVal.vVec (.cons (.vU32 1) (.cons (.vU32 3) .nil))] 0
        (ResVal.vU32 2) = .ok 1 ∧
    sortedVList (vlistInsertAt (.cons (.vU32 1) (.cons (.vU32 3) .nil)) 1
        (ResVal.vU32 2)) = true := by
  have h := C6_vec_binary_search
      [ResVal.vVec (.cons (.vU32 1) (.cons (.vU32 3) .nil))] 0
      (.cons (.vU32 1) (.cons (.vU32 3) .nil)) (ResVal.vU32 2)
      rfl rfl (by decide)
  exact ⟨by rw [h.1]; rfl, h.2.2.2.2 rfl⟩

end Soroban
